import Mathlib

/-!
Verification development for the grub-pal repository's core subsystems:
the Config Line Model (`GrubFile`) and the Rule Validation Engine
(`WizValidator`), shallowly embedded from `src/grub_wiz/GrubFile.py` and
`src/grub_wiz/WizValidator.py`.
-/

namespace GrubPal

/-! ### Definitions: shallow embedding of the source -/

instance {ε α : Type} [DecidableEq ε] [DecidableEq α] : DecidableEq (Except ε α)
  | .error e, .error e' =>
    if h : e = e' then .isTrue (h ▸ rfl) else .isFalse (fun hh => h (Except.error.inj hh))
  | .ok a, .ok a' =>
    if h : a = a' then .isTrue (h ▸ rfl) else .isFalse (fun hh => h (Except.ok.inj hh))
  | .error _, .ok _ => .isFalse (fun hh => Except.noConfusion hh)
  | .ok _, .error _ => .isFalse (fun hh => Except.noConfusion hh)

/-! ### Python string-method helpers -/
/-- Whitespace characters stripped by Python's `str.strip()` (ASCII subset). -/
def isPyWs (c : Char) : Bool :=
  c = ' ' || c = '\t' || c = '\n' || c = '\r' || c = '\x0b' || c = '\x0c'

def lstripL (l : List Char) : List Char := l.dropWhile isPyWs

def rstripL (l : List Char) : List Char := (l.reverse.dropWhile isPyWs).reverse

/-- Python `str.strip()`. -/
def pyStrip (s : String) : String := ⟨rstripL (lstripL s.data)⟩

/-- Python `str.rstrip()`. -/
def pyRstrip (s : String) : String := ⟨rstripL s.data⟩

/-- Python `str.lstrip()`. -/
def pyLstrip (s : String) : String := ⟨lstripL s.data⟩

/-- Python `str.rstrip(c)` for a single strip character `c`. -/
def rstripChar (c : Char) (s : String) : String :=
  ⟨(s.data.reverse.dropWhile (· = c)).reverse⟩

/-- Python `str.strip(c)` for a single strip character `c`. -/
def stripChar (c : Char) (s : String) : String :=
  ⟨((s.data.dropWhile (· = c)).reverse.dropWhile (· = c)).reverse⟩

/-- Is `n` an infix of the second list? -/
def isInfixL (n : List Char) : List Char → Bool
  | [] => n.isEmpty
  | c :: t => n.isPrefixOf (c :: t) || isInfixL n t

/-- Python's `needle in hay` substring test. -/
def isSubstr (needle hay : String) : Bool := isInfixL needle.data hay.data

/-! ### Ordered-dict helpers (Python `dict` preserves insertion order) -/
/-- Lookup in an insertion-ordered association list (Python `d[k]` / `d.get(k)`). -/
def dictGet {α : Type} (l : List (String × α)) (k : String) : Option α :=
  match l with
  | [] => none
  | (k', v) :: t => if k' = k then some v else dictGet t k

/-- Python `d[k] = v`: update in place if present, else append at the end. -/
def dictSet {α : Type} (l : List (String × α)) (k : String) (v : α) :
    List (String × α) :=
  match l with
  | [] => [(k, v)]
  | (k', v') :: t => if k' = k then (k, v) :: t else (k', v') :: dictSet t k v

/-! ### `textwrap.wrap` with `width=68, break_long_words=False,
break_on_hyphens=False` and the remaining options at their defaults
(`expand_tabs=True, replace_whitespace=True, drop_whitespace=True`),
as `GrubFile.write_file` calls it. -/
/-- `str.expandtabs(tabsize)`: tabs pad to the next multiple of `tabsize`;
the column counter resets after a newline or carriage return. -/
def pyExpandTabs (tabsize : Nat) : Nat → List Char → List Char
  | _, [] => []
  | col, c :: t =>
    if c = '\t' then
      (if tabsize > 0 then List.replicate (tabsize - col % tabsize) ' ' else []) ++
        pyExpandTabs tabsize (if tabsize > 0 then col + (tabsize - col % tabsize) else col) t
    else if c = '\n' ∨ c = '\r' then c :: pyExpandTabs tabsize 0 t
    else c :: pyExpandTabs tabsize (col + 1) t

/-- `TextWrapper._munge_whitespace`: expand tabs, then translate each of
`\t\n\x0b\x0c\r` to a space. -/
def munge (s : String) : List Char :=
  (pyExpandTabs 8 0 s.data).map (fun c => if isPyWs c ∧ c ≠ ' ' then ' ' else c)

/-- A chunk consisting solely of whitespace (`chunk.strip() == ''`). -/
def isWsChunk (c : List Char) : Bool := c.all isPyWs

/-- `wordsep_simple_re` split (fuelled; each step consumes at least one
character, so `l.length + 1` fuel always suffices — `splitRunsF_adequate`). -/
def splitRunsF : Nat → List Char → List (List Char)
  | 0, _ => []
  | fuel + 1, l =>
    match l with
    | [] => []
    | c :: t =>
      (c :: t.takeWhile (fun x => isPyWs x = isPyWs c)) ::
        splitRunsF fuel (t.dropWhile (fun x => isPyWs x = isPyWs c))

/-- `wordsep_simple_re` split (`break_on_hyphens=False`): alternating maximal
runs of whitespace / non-whitespace, empties filtered out. -/
def splitRuns (l : List Char) : List (List Char) :=
  splitRunsF (l.length + 1) l

/-- The greedy inner loop of `TextWrapper._wrap_chunks`: take chunks while
the accumulated length stays within `width`. -/
def greedyTake (width : Nat) : Nat → List (List Char) → List (List Char) →
    List (List Char) × List (List Char)
  | _, acc, [] => (acc.reverse, [])
  | curLen, acc, c :: t =>
    if curLen + c.length ≤ width then greedyTake width (curLen + c.length) (c :: acc) t
    else (acc.reverse, c :: t)

/-- Drop a leading whitespace chunk at the start of every line but the first
(`drop_whitespace` handling). -/
def dropInitialWs (hasLines : Bool) (chunks : List (List Char)) : List (List Char) :=
  match chunks with
  | c :: t => if hasLines ∧ isWsChunk c then t else chunks
  | [] => []

/-- `TextWrapper._handle_long_word` with `break_long_words=False`: a chunk
longer than `width` is put on a line of its own only when the current line
is still empty; otherwise it is left for the next line. -/
def handleLongWord (width : Nat) (cur rest : List (List Char)) :
    List (List Char) × List (List Char) :=
  match rest with
  | c :: t => if c.length > width ∧ cur.isEmpty then ([c], t) else (cur, rest)
  | [] => (cur, rest)

/-- Drop a trailing whitespace chunk from the line being assembled
(`drop_whitespace` handling). -/
def dropTrailingWs (cur : List (List Char)) : List (List Char) :=
  match cur.getLast? with
  | some lastc => if isWsChunk lastc then cur.dropLast else cur
  | none => cur

/-- One iteration of the outer `while chunks` loop of `_wrap_chunks`:
returns the emitted line, if any, and the remaining chunks. -/
def wrapStep (width : Nat) (hasLines : Bool) (chunks : List (List Char)) :
    Option (List Char) × List (List Char) :=
  let chunks1 := dropInitialWs hasLines chunks
  let gr := greedyTake width 0 [] chunks1
  let hw := handleLongWord width gr.1 gr.2
  let cur := dropTrailingWs hw.1
  (if cur.isEmpty then none else some cur.flatten, hw.2)

/-- The outer loop of `TextWrapper._wrap_chunks` (`max_lines=None`),
fuelled; every iteration consumes at least one chunk
(`wrapStep_rest_lt`), so `chunks.length + 1` fuel always suffices. -/
def wrapChunksF : Nat → Nat → Bool → List (List Char) → List (List Char)
  | 0, _, _, _ => []
  | fuel + 1, width, hasLines, chunks =>
    match chunks with
    | [] => []
    | _ :: _ =>
      match wrapStep width hasLines chunks with
      | (some l, rest) => l :: wrapChunksF fuel width true rest
      | (none, rest) => wrapChunksF fuel width hasLines rest

/-- The outer loop of `TextWrapper._wrap_chunks` (`max_lines=None`). -/
def wrapChunks (width : Nat) (hasLines : Bool) (chunks : List (List Char)) :
    List (List Char) :=
  wrapChunksF (chunks.length + 1) width hasLines chunks

/-- `textwrap.wrap(text, width, break_long_words=False, break_on_hyphens=False)`. -/
def pyWrap (width : Nat) (text : String) : List String :=
  (wrapChunks width false (splitRuns (munge text))).map (fun l => ⟨l⟩)

namespace GrubFile

/-- `GrubFile.COMMENT`: in-band "value" of commented-out parameter lines. -/
def COMMENT : String := "∎"

/-- `GrubFile.ABSENT`: in-band "value" of parameters missing from the file. -/
def ABSENT : String := "≡"

/-- One `param_data` entry (`SimpleNamespace(line_num, value, new_value, out_value)`). -/
structure Datum where
  line_num : Option Nat
  value : String
  new_value : Option String
  out_value : Option String
  deriving Repr, DecidableEq

/-- The slice of a parameter's metadata (`CannedConfig.default_cfg` shape)
that `GrubFile` reads or writes: `default` and `guidance`.  The remaining
fields (`edit_re`, `enums`, `hide`) are never consulted by `GrubFile`. -/
structure Cfg where
  default : String := ""
  guidance : String := ""
  deriving Repr, DecidableEq

/-- The mutable state of a `GrubFile` object. -/
structure GState where
  lines : List String
  param_of : List (Option String)
  param_data : List (String × Datum)
  supported : List (String × Cfg)
  extra : List (String × Cfg)
  deriving Repr, DecidableEq

/-- `GrubFile._cleanse`: strip the value part, clip at the first `#` that is
outside single/double quotes, then strip trailing whitespace. -/
def findUnquotedHash : List Char → Bool → Bool → Option Nat
  | [], _, _ => none
  | c :: t, sq, dq =>
    if c = '\'' ∧ ¬dq then (· + 1) <$> findUnquotedHash t (!sq) dq
    else if c = '"' ∧ ¬sq then (· + 1) <$> findUnquotedHash t sq (!dq)
    else if c = '#' ∧ ¬sq ∧ ¬dq then some 0
    else (· + 1) <$> findUnquotedHash t sq dq

def cleanse (value_part : String) : String :=
  let s := pyStrip value_part
  let comment_index := (findUnquotedHash s.data false false).getD s.data.length
  pyRstrip ⟨s.data.take comment_index⟩

/-- Maximal-munch parse of the regex group `(_[A-Z]+)+` (fuelled so the
kernel can evaluate it; each step consumes at least one character, so
`l.length + 1` fuel is always enough — see `parseGroupsF_adequate`). -/
def parseGroupsF : Nat → List Char → List Char × List Char
  | 0, l => ([], l)
  | fuel + 1, l =>
    match l with
    | [] => ([], [])
    | c :: t =>
      if c = '_' then
        let u := t.takeWhile (fun x => 'A' ≤ x ∧ x ≤ 'Z')
        let r := t.dropWhile (fun x => 'A' ≤ x ∧ x ≤ 'Z')
        if u.isEmpty then ([], c :: t)
        else
          let (g, r') := parseGroupsF fuel r
          (c :: (u ++ g), r')
      else ([], c :: t)

/-- Maximal-munch parse of the regex group `(_[A-Z]+)+`; returns the
consumed characters and the rest (empty consumption = no match). -/
def parseGroups (l : List Char) : List Char × List Char :=
  parseGroupsF (l.length + 1) l

/-- `re.match(r"\s*(#)?\s*(GRUB(_[A-Z]+)+)\s*=(.*)$", line)` on a stripped
line: returns `(is_comment, name, value_part)` when the line is a recognized
(possibly commented) assignment. -/
def parseAssign (s : String) : Option (Bool × String × String) :=
  let l := s.data.dropWhile isPyWs
  let (isC, l) := match l with
    | '#' :: t => (true, t)
    | _ => (false, l)
  let l := l.dropWhile isPyWs
  match l with
  | 'G' :: 'R' :: 'U' :: 'B' :: rest =>
    let (g, r) := parseGroups rest
    if g.isEmpty then none
    else
      match r.dropWhile isPyWs with
      | '=' :: v => some (isC, ⟨'G' :: 'R' :: 'U' :: 'B' :: g⟩, ⟨v⟩)
      | _ => none
  | _ => none

/-- `GrubFile._collect_guidance` loop: walk upward from line `n - 1`
collecting contiguous comment lines (`n = 0` means nothing above). -/
def collectUp (lines : List String) : Nat → List String
  | 0 => []
  | n + 1 =>
    let line := pyStrip (lines.getD n "")
    if line = "" ∨ ¬ line.startsWith "#" then []
    else collectUp lines n ++ [pyLstrip (line.drop 1)]

/-- `GrubFile._collect_guidance`. -/
def collectGuidance (lines : List String) (line_index : Nat) : String :=
  String.intercalate "\n" (collectUp lines line_index)

/-- Fresh `param_data` entry (`line_num=None, value=ABSENT, new_value=None,
out_value=None`). -/
def absentDatum : Datum := ⟨none, ABSENT, none, none⟩

/-- `GrubFile._initialize_param_data`. -/
def initParamData (supported : List (String × Cfg)) : List (String × Datum) :=
  supported.map (fun kc => (kc.1, absentDatum))

/-- Discovery of an unvalidated parameter found in the file: adopt it with
a minimal config derived from `CannedConfig.default_cfg`. -/
def discover (st : GState) (i : Nat) (param value_part : String) : GState :=
  let guidance := collectGuidance st.lines i
  let value := cleanse value_part
  let param_cfg : Cfg := { default := value, guidance := guidance }
  { st with
      extra := dictSet st.extra param param_cfg,
      supported := dictSet st.supported param param_cfg,
      param_data := dictSet st.param_data param absentDatum }

/-- Record line `i` as the current claim for `param`
(the tail of the `read_file` loop body). -/
def claimLine (st : GState) (i : Nat) (is_comment : Bool)
    (param value_part : String) (data : Datum) : GState :=
  let value := cleanse value_part
  { st with
      param_of := st.param_of.set i (some param),
      param_data := dictSet st.param_data param
        { data with
            line_num := some i,
            value := if is_comment then COMMENT else value,
            out_value := if is_comment then some value else none } }

/-- The tail of the `read_file` loop body once a line has been recognized
as a (possibly commented) assignment: discovery of unvalidated parameters,
then duplicate handling ("last uncommented line wins"). -/
def processMatched (ga : String → Bool) (st : GState) (i : Nat)
    (is_comment : Bool) (param value_part : String) : Except String GState :=
  if (dictGet st.supported param).isNone ∧ ga param then .ok st
  else
    let st :=
      if (dictGet st.supported param).isNone ∧ (dictGet st.extra param).isNone
      then discover st i param value_part else st
    match dictGet st.param_data param with
    | none => .error ("KeyError: " ++ param)
    | some data =>
      -- duplicate parameters: last uncommented line wins
      match data.line_num with
      | none => .ok (claimLine st i is_comment param value_part data)
      | some prev =>
        if is_comment ∧ data.value ≠ COMMENT then .ok st
        else
          let lines' :=
            if data.value ≠ COMMENT then
              st.lines.set prev ("#" ++ st.lines.getD prev "")
            else st.lines
          .ok (claimLine
            { st with lines := lines', param_of := st.param_of.set prev none }
            i is_comment param value_part data)

/-- The body of the `read_file` scan for one line.  `ga` is the external
`ParamDiscovery.get_absent` predicate (a collaborator outside the core).
Python `KeyError` is modeled as `Except.error`. -/
def processLine (ga : String → Bool) (st : GState) (i : Nat) (rawLine : String) :
    Except String GState :=
  let line := pyStrip rawLine
  if line = "" then .ok st
  else
    match parseAssign line with
    | none => .ok st
    | some (is_comment, param, value_part) =>
      processMatched ga st i is_comment param value_part

/-- The `for i, line in enumerate(self.lines)` loop of `read_file`.
(The loop body only ever rewrites already-visited indices `< i`, so
iterating over the original list is faithful.) -/
def readLoop (ga : String → Bool) : Nat → List String → GState → Except String GState
  | _, [], st => .ok st
  | i, l :: ls, st => do readLoop ga (i + 1) ls (← processLine ga st i l)

/-- `GrubFile.read_file` (together with the field setup `__init__` does):
`fileContent = none` models `FileNotFoundError`, in which case `lines` is
reset and the function returns early — `_initialize_param_data` never runs. -/
def read_file (supported : List (String × Cfg)) (ga : String → Bool)
    (fileContent : Option (List String)) : Except String GState :=
  match fileContent with
  | none =>
    .ok { lines := [], param_of := [], param_data := [],
          supported := supported, extra := [] }
  | some ls =>
    readLoop ga 0 ls
      { lines := ls,
        param_of := List.replicate ls.length none,
        param_data := initParamData supported,
        supported := supported,
        extra := [] }

/-- `GrubFile.get_current_state` (`self.param_data[param].value`;
`none` models `KeyError`). -/
def get_current_state (st : GState) (param : String) : Option String :=
  (dictGet st.param_data param).map (·.value)

/-- `GrubFile.set_new_value` (`none` models `KeyError`). -/
def set_new_value (st : GState) (param value : String) : Except String GState :=
  match dictGet st.param_data param with
  | none => .error ("KeyError: " ++ param)
  | some d => .ok { st with
      param_data := dictSet st.param_data param { d with new_value := some value } }

/-- `GrubFile.del_parameter`. -/
def del_parameter (st : GState) (param : String) : Except String GState :=
  set_new_value st param COMMENT

/-! #### `write_file` -/
/-- The loop body of `write_file` stage 1 for original line `i`: the
`(prefix, text)` pair appended to `new_lines`, or `none` when the line is
dropped (pending `COMMENT` on an originally `ABSENT` parameter).  A
violated `assert new_value != self.ABSENT` and a `KeyError` are
`Except.error`s. -/
def writeLineItem (st : GState) (i : Nat) (line : String) :
    Except String (Option (String × String)) :=
  match st.param_of.getD i none with
  | none => .ok (some (" ", line))  -- unsupported param or any non-param line
  | some param =>
    match dictGet st.param_data param with
    | none => .error ("KeyError: " ++ param)
    | some data =>
      match data.new_value with
      | none => .ok (some ("=", line))  -- unchanged supported param
      | some new_value =>
        if new_value = ABSENT then .error "AssertionError"
        else if new_value = COMMENT then
          -- don't write commented lines for originally absent params
          if data.value = ABSENT then .ok none
          else if data.value ≠ COMMENT then .ok (some ("~", "#" ++ line))
          else .ok (some ("~", line))
        else .ok (some ("~", param ++ "=" ++ new_value ++ "\n"))

/-- Stage 1 of `write_file`: process existing lines in order. -/
def writeStage1 (st : GState) : Nat → List String → Except String (List (String × String))
  | _, [] => .ok []
  | i, line :: rest => do
    let item ← writeLineItem st i line
    let tail ← writeStage1 st (i + 1) rest
    .ok (item.toList ++ tail)

/-- The loop body of `write_file` stage 2 for one supported parameter:
the appended block (possibly empty) for a parameter that was absent in
the original file. -/
def writeParamBlock (st : GState) (param : String) (cfg : Cfg) :
    Except String (List (String × String)) :=
  match dictGet st.param_data param with
  | none => .error ("KeyError: " ++ param)
  | some data =>
    if data.value = ABSENT then
      match data.new_value with
      | none => .ok []
      | some new_value =>
        if new_value = COMMENT then .ok []
        else
          .ok (("+ ", "\n") ::
            (if cfg.guidance ≠ "" then
              (pyWrap 68 cfg.guidance).map (fun l => ("+", "# " ++ l ++ "\n"))
             else []) ++ [("+", param ++ "=" ++ new_value ++ "\n")])
    else .ok []

/-- Stage 2 of `write_file`: append parameters that were absent in the
original file, in `supported_params` iteration order. -/
def writeStage2 (st : GState) : List (String × Cfg) → Except String (List (String × String))
  | [] => .ok []
  | (param, cfg) :: rest => do
    let block ← writeParamBlock st param cfg
    let tail ← writeStage2 st rest
    .ok (block ++ tail)

/-- The `new_lines` sequence `write_file` builds before any I/O. -/
def writeNewLines (st : GState) : Except String (List (String × String)) := do
  let s1 ← writeStage1 st 0 st.lines
  let s2 ← writeStage2 st st.supported
  .ok (s1 ++ s2)

/-- The text `write_file` writes to the destination file
(only the second component of each pair is written). -/
def writeContent (st : GState) : Except String String :=
  (writeNewLines st).map (fun nl => String.join (nl.map (·.2)))

/-- `GrubFile.write_file` with the destination's I/O behaviour abstracted:
`ioOk = false` means opening/writing raised, which the function catches,
reporting `False`; nothing is assigned to any `self` field either way.
Result: (return value, content persisted if any, object state after the call). -/
def write_file (st : GState) (ioOk : Bool) : Except String (Bool × Option String × GState) := do
  let nl ← writeNewLines st
  if ioOk then .ok (true, some (String.join (nl.map (·.2))), st)
  else .ok (false, none, st)

end GrubFile

namespace WizValidator

/-- The three disk-layout facts
(`SimpleNamespace(has_another_os, is_luks_active, is_lvm_active)`). -/
structure Layout where
  has_another_os : Bool := false
  is_luks_active : Bool := false
  is_lvm_active : Bool := false
  deriving Repr, DecidableEq

/-- One partition object of the `lsblk -o FSTYPE,PARTTYPE -J` JSON
(`partition.get('FSTYPE', '')` reads an optional field). -/
structure Partition where
  FSTYPE : Option String := none
  PARTTYPE : Option String := none
  deriving Repr, DecidableEq

/-- One block-device object; `children` is an optional field. -/
structure Device where
  children : Option (List Partition) := none
  deriving Repr, DecidableEq

/-- Outcome of the external `lsblk` enumeration call. -/
inductive LsblkOutcome where
  | toolMissing                       -- `FileNotFoundError`
  | exitNonZero                       -- `process.returncode != 0`
  | badJson                           -- `json.JSONDecodeError`
  | ok (blockdevices : List Device)   -- parsed JSON
  deriving Repr, DecidableEq

/-- The inner partition loop of `probe_disk_layout`, including the early
`break` once all three flags are set. -/
def scanPartitions (result : Layout) : List Partition → Layout
  | [] => result
  | p :: ps =>
    let fstype := (p.FSTYPE.getD "").toLower
    let parttype := (p.PARTTYPE.getD "").toLower
    let result :=
      if fstype ∈ ["ntfs", "vfat", "fat32", "exfat"] then
        { result with has_another_os := true } else result
    let result :=
      if isSubstr "de94bba4-06d9-4d40-a16a-bfd50179d6ac" parttype then
        { result with has_another_os := true } else result
    let result :=
      if fstype ∈ ["crypto_luks", "crypto_luks2"] then
        { result with is_luks_active := true } else result
    let result :=
      if fstype = "lvm2_member" ∨ isSubstr "e6d6d379-f507-44c2-a23c-238f2a3df928" parttype
      then { result with is_lvm_active := true } else result
    if result.has_another_os ∧ result.is_luks_active ∧ result.is_lvm_active then result
    else scanPartitions result ps

/-- The device loop of `probe_disk_layout`
(`for device in data.get('blockdevices', [])`). -/
def scanDevices (result : Layout) : List Device → Layout
  | [] => result
  | d :: ds =>
    let result :=
      match d.children with
      | some parts => scanPartitions result parts
      | none => result
    scanDevices result ds

/-- `WizValidator.probe_disk_layout`, with the `self._disk_layout_cache`
field and the external `lsblk` invocation made explicit.  Returns the
result, the cache after the call, and whether the subprocess was invoked. -/
def probe_disk_layout (cache : Option Layout) (outcome : LsblkOutcome) :
    Layout × Option Layout × Bool :=
  match cache with
  | some r => (r, some r, false)
  | none =>
    match outcome with
    | .toolMissing => ({}, some {}, true)
    | .exitNonZero => ({}, some {}, true)
    | .badJson => ({}, some {}, true)
    | .ok devs =>
      let r := scanDevices {} devs
      (r, some r, true)

/-- `os.path.join` for the cases arising here. -/
def pyJoin (base p : String) : String :=
  if p.startsWith "/" then p
  else if base.endsWith "/" then base ++ p
  else base ++ "/" ++ p

/-- `WizValidator.get_full_path_and_check_existence`, with `os.path.exists`
abstracted as the oracle `pathEx`. -/
def get_full_path_and_check_existence (pathEx : String → Bool) (path : String) :
    Bool × String :=
  let base_dirs := ["/boot/grub", "/boot/grub2", "/usr/share/grub", "/"]
  if path = "" then (false, "")
  else
    let resolved := stripChar '\'' (stripChar '"' (pyStrip path))
    let resolved :=
      if resolved.startsWith "$prefix" then resolved.replace "$prefix" "/boot/grub"
      else resolved
    if resolved.startsWith "/" then (pathEx resolved, resolved)
    else
      match base_dirs.find? (fun b => pathEx (pyJoin b resolved)) with
      | some b => (true, pyJoin b resolved)
      | none => (false, pyJoin "/boot/grub" resolved)

/-! #### Python `float()` (as far as `make_warns` needs it) -/
def isDig (c : Char) : Bool := '0' ≤ c ∧ c ≤ '9'

def digitsVal (l : List Char) : Nat :=
  l.foldl (fun a c => a * 10 + (c.toNat - '0'.toNat)) 0

inductive PyFloat where
  | fin (q : ℚ)
  | inf
  | ninf
  | nan
  deriving Repr, DecidableEq

/-- Exponent part `[eE][+-]?digits` of a float literal, applied to
mantissa `m`; `none` when trailing garbage remains. -/
def parseExpPart (m : ℚ) : List Char → Option ℚ
  | [] => some m
  | c :: r =>
    if c = 'e' ∨ c = 'E' then
      let (epos, r2) : Bool × List Char :=
        match r with
        | '+' :: r' => (true, r')
        | '-' :: r' => (false, r')
        | _ => (true, r)
      let ds := r2.takeWhile isDig
      let rest := r2.dropWhile isDig
      if ds.isEmpty ∨ ¬rest.isEmpty then none
      else some (if epos then m * 10 ^ digitsVal ds else m / 10 ^ digitsVal ds)
    else none

/-- Finite decimal literal `digits[.digits][exponent]`
(at least one mantissa digit). -/
def parseDecimal (l : List Char) : Option ℚ :=
  let intD := l.takeWhile isDig
  let r := l.dropWhile isDig
  match r with
  | '.' :: r2 =>
    let fracD := r2.takeWhile isDig
    let r3 := r2.dropWhile isDig
    if intD.isEmpty ∧ fracD.isEmpty then none
    else parseExpPart ((digitsVal intD : ℚ) + (digitsVal fracD : ℚ) / (10 ^ fracD.length)) r3
  | _ =>
    if intD.isEmpty then none
    else parseExpPart (digitsVal intD : ℚ) r

/-- `float(s)` (underscored digit groups aside, which no GRUB value uses). -/
def pyFloatVal (s : String) : Option PyFloat :=
  let l := rstripL (lstripL s.data)
  let (pos, l) : Bool × List Char :=
    match l with
    | '+' :: t => (true, t)
    | '-' :: t => (false, t)
    | _ => (true, l)
  let low : String := (⟨l⟩ : String).toLower
  if low = "inf" ∨ low = "infinity" then some (if pos then .inf else .ninf)
  else if low = "nan" then some .nan
  else
    match parseDecimal l with
    | some q => some (.fin (if pos then q else -q))
    | none => none

/-- `float(s) > 0`, with `ValueError` giving `False`
(the `try`/`except ValueError` around the positive-timeout check). -/
def pyFloatPos (s : String) : Bool :=
  match pyFloatVal s with
  | some (.fin q) => q > 0
  | some .inf => true
  | some .ninf => false
  | some .nan => false
  | none => false

/-! #### `make_warns` -/
/-- Python `str.isdigit()` (ASCII digits). -/
def pyIsDigit (s : String) : Bool :=
  ¬s.data.isEmpty ∧ s.data.all isDig

/-- The `unquote` helper local to `make_warns`. -/
def unquote (value : String) : String :=
  if value.startsWith "'" then rstripChar '\'' (value.drop 1)
  else if value.startsWith "\"" then rstripChar '"' (value.drop 1)
  else value

/-- The `quotes` helper: all forms of a simple value in a grub config. -/
def quotes (param : String) : List String :=
  [param, "\"" ++ param ++ "\"", "'" ++ param ++ "'"]

/-- The `sh` ("ShortHand") helper: `GRUB_TIMEOUT` → `TIMEOUT`. -/
def sh (param : String) : String := param.drop 5

/-- `stars = [''] + '* ** *** ****'.split()`. -/
def stars : List String := ["", "*", "**", "***", "****"]

/-- Accumulated warnings: param → list of (star string, message). -/
abbrev Warns := List (String × List (String × String))

/-- The `hey` helper local to `make_warns`.  Note `if not warns[param]`
indexes the dict *before* the key is ever inserted, so the first message
for any parameter raises `KeyError` (modeled as `Except.error`). -/
def hey (warns : Warns) (param : String) (severity : Nat) (message : String) :
    Except String Warns :=
  match dictGet warns param with
  | none => .error ("KeyError: " ++ param)
  | some lst =>
    let lst := if lst.isEmpty then ([] : List (String × String)) else lst
    .ok (dictSet warns param (lst ++ [(stars.getD severity "", message)]))

/-- `vals[k]` (`KeyError` as `Except.error`). -/
def getVal (vals : List (String × String)) (k : String) : Except String String :=
  match dictGet vals k with
  | some v => .ok v
  | none => .error ("KeyError: " ++ k)

/-- Python `x in tuple` where `x` may be `None` (`None` is in no quotes tuple). -/
def optIn (o : Option String) (l : List String) : Bool :=
  match o with
  | some v => l.contains v
  | none => false

/-- The slice of a parameter's `param_cfg` entry that `make_warns` reads:
`cfg.get('enums', None)` and `cfg.get('checks', None)` (the latter is only
ever tested for truthiness/emptiness). -/
structure PCfg where
  enums : Option (List (String × String)) := none
  checks : Option (List String) := none
  deriving Repr, DecidableEq

/-- Body of `make_warns`'s Common Mistake Check 1 for one of the two
CMDLINE parameters (values containing spaces must be quoted). -/
def checkQuoted (vals : List (String × String)) (warns : Warns) (p : String) :
    Except String Warns :=
  match dictGet vals p with
  | some value =>
    if isSubstr " " value ∧ ¬ (quotes (unquote value)).contains value then
      hey warns p 2 "has spaces and thus must be quoted"
    else .ok warns
  | none => .ok warns

/-- Body of `make_warns`'s Common Mistake Check 2 for one of the two
path-valued parameters. -/
def checkPath (pathEx : String → Bool) (vals : List (String × String))
    (warns : Warns) (p1 : String) : Except String Warns := do
  let v ← getVal vals p1
  if ¬ (get_full_path_and_check_existence pathEx v).1 then
    hey warns p1 2 "path does not seem to exist"
  else .ok warns

/-- The final enum-membership loop of `make_warns`. -/
def enumLoop (vals : List (String × String)) :
    Warns → List (String × PCfg) → Except String Warns
  | warns, [] => .ok warns
  | warns, pc :: rest => do
    let has_enums : Bool := match pc.2.enums with | some e => !e.isEmpty | none => false
    let has_no_checks : Bool := match pc.2.checks with | none => true | some c => c.isEmpty
    let warns ←
      match dictGet vals pc.1 with
      | some v =>
        if has_enums ∧ has_no_checks then
          let value := unquote v
          if ¬ (pc.2.enums.getD []).any (fun kv => value = unquote kv.1) then
            hey warns pc.1 3 "value not in list of allowed values"
          else pure warns
        else pure warns
      | none => pure warns
    enumLoop vals warns rest

/-- `WizValidator.make_warns`.  `pathEx` abstracts `os.path.exists` and
`layout` the (cached) result of `self.probe_disk_layout()`;
`param_cfg` is `self.param_cfg`.  The two fixed two-element `for` loops of
the source are unrolled. -/
def make_warns (pathEx : String → Bool) (layout : Layout)
    (param_cfg : List (String × PCfg)) (vals : List (String × String)) :
    Except String Warns := do
  let warns : Warns := []
  -- if _DEFAULT is saved, then _SAVEDDEFAULT must be true
  let vDef ← getVal vals "GRUB_DEFAULT"
  let warns ←
    if (quotes "saved").contains vDef then do
      let vSav ← getVal vals "GRUB_SAVEDDEFAULT"
      if ¬ (quotes "true").contains vSav then
        hey warns "GRUB_SAVEDDEFAULT" 4
          ("must be \"true\" since " ++ sh "GRUB_DEFAULT" ++ " is \"saved\"")
      else pure warns
    else pure warns
  -- Critical Check 2: DEFAULT=hidden & HIDDEN_TIMEOUT
  let warns ←
    if optIn (dictGet vals "GRUB_DEFAULT") (quotes "hidden") then
      let ht := dictGet vals "GRUB_HIDDEN_TIMEOUT"
      if ht.isNone ∨ optIn ht (quotes "0") ∨ optIn ht (quotes "0.0") then
        hey warns "GRUB_HIDDEN_TIMEOUT" 4
          ("should be positive int when " ++ sh "GRUB_DEFAULT" ++ " is \"hidden\"")
      else pure warns
    else pure warns
  -- Best Practice Check 1: TIMEOUT=0 & TIMEOUT_STYLE=hidden
  let tm := dictGet vals "GRUB_TIMEOUT"
  let warns ←
    if (optIn tm (quotes "0") ∨ optIn tm (quotes "0.0")) ∧
        optIn (dictGet vals "GRUB_TIMEOUT_STYLE") (quotes "hidden") then
      hey warns "GRUB_TIMEOUT" 4
        ("should be positive int when " ++ sh "GRUB_TIMEOUT_STYLE" ++ "=\"hidden\"")
    else pure warns
  -- Critical Check 3: TIMEOUT > 0 but TIMEOUT_STYLE is NOT menu
  let timeout_val := unquote ((dictGet vals "GRUB_TIMEOUT").getD "0")
  let timeout_style := dictGet vals "GRUB_TIMEOUT_STYLE"
  let warns ←
    if pyFloatPos timeout_val ∧ ¬ optIn timeout_style (quotes "menu") then
      hey warns "GRUB_TIMEOUT_STYLE" 4
        ("should be \"menu\" when " ++ sh "GRUB_TIMEOUT" ++ " > 0")
    else pure warns
  -- Best Practice Check 2: 'quiet'/'splash' only in GRUB_CMDLINE_LINUX_DEFAULT
  let vCmd ← getVal vals "GRUB_CMDLINE_LINUX"
  let warns ←
    if isSubstr "quiet" vCmd then
      hey warns "GRUB_CMDLINE_LINUX" 3
        ("\"quiet\" belongs only in " ++ sh "GRUB_CMDLINE_LINUX_DEFAULT")
    else pure warns
  let warns ←
    if isSubstr "splash" vCmd then
      hey warns "GRUB_CMDLINE_LINUX" 3
        ("\"splash\" belongs only in " ++ sh "GRUB_CMDLINE_LINUX_DEFAULT")
    else pure warns
  let warns ←
    if layout.is_luks_active ∧ ¬ isSubstr "rd.luks.uuid=" vCmd then
      hey warns "GRUB_CMDLINE_LINUX" 3 "no \"rd.luks.uuid=\" but LUKS seems active"
    else pure warns
  let warns ←
    if layout.is_lvm_active ∧ ¬ isSubstr "rd.lvm.vg=" vCmd then
      hey warns "GRUB_CMDLINE_LINUX" 3 "no \"rd.lvm.vg=\" but LVM seems active"
    else pure warns
  -- Advanced Check 1: SAVEDEFAULT=true but DEFAULT is numeric
  let vSav2 ← getVal vals "GRUB_SAVEDDEFAULT"
  let warns ←
    if (quotes "true").contains vSav2 then
      let default_value := (dictGet vals "GRUB_DEFAULT").getD "0"
      if pyIsDigit (unquote default_value) then
        hey warns "GRUB_DEFAULT" 1
          ("avoid numeric when " ++ sh "GRUB_SAVEDDEFAULT" ++ "=\"true\"")
      else pure warns
    else pure warns
  -- Common Mistake Check 1: unquoted values in CMDLINEs
  let warns ← checkQuoted vals warns "GRUB_CMDLINE_LINUX"
  let warns ← checkQuoted vals warns "GRUB_CMDLINE_LINUX_DEFAULT"
  -- Common Mistake Check 2: GRUB_BACKGROUND / GRUB_THEME path doesn't exist
  let warns ← checkPath pathEx vals warns "GRUB_BACKGROUND"
  let warns ← checkPath pathEx vals warns "GRUB_THEME"
  -- Common Mistake Check 4: GFXMODE set but not a known safe value
  let warns ←
    match dictGet vals "GRUB_GFXMODE" with
    | some value =>
      if value ≠ "" then
        let safe_modes := ["640x480", "800x600", "1024x768", "auto", "keep"]
        let modes := ((unquote value).splitOn ",").map (fun m => (pyStrip m).toLower)
        let unsafe_modes := modes.filter (fun m => ¬ safe_modes.contains m)
        if ¬ unsafe_modes.isEmpty then
          hey warns "GRUB_GFXMODE" 1 "perhaps unsupported; stick to common values"
        else pure warns
      else pure warns
    | none => pure warns
  -- Common Mistake Check 5: missing GRUB_DISTRIBUTOR
  let vDis ← getVal vals "GRUB_DISTRIBUTOR"
  let warns ←
    if vDis = "" then
      hey warns "GRUB_DISTRIBUTOR" 2 "should be distro name (it is missing/empty)"
    else pure warns
  -- Best Practice Check 4: OS-PROBER disabled on dual-boot system
  let is_prober_disabled := optIn (dictGet vals "GRUB_DISABLE_OS_PROBER") (quotes "true")
  let warns ←
    if is_prober_disabled ∧ layout.has_another_os then
      hey warns "GRUB_DISABLE_OS_PROBER" 2
        "suggest setting \"false\" since multi-boot detected"
    else pure warns
  let warns ←
    if ¬ is_prober_disabled ∧ ¬ layout.has_another_os then
      hey warns "GRUB_DISABLE_OS_PROBER" 1
        "perhaps set \"true\" since no multi-boot detected?"
    else pure warns
  -- for parameters with fixed list of possible values, ensure one of them
  enumLoop vals warns param_cfg

end WizValidator

/-! ## Shared concrete fixtures -/
/-- A `get_absent` oracle that never reports a parameter as absent. -/
def gaNone : String → Bool := fun _ => false

/-- An `os.path.exists` oracle under which every path exists. -/
def pxTrue : String → Bool := fun _ => true

/-- A small supported-parameter table for concrete instances. -/
def demoSupported : List (String × GrubFile.Cfg) :=
  [("GRUB_TIMEOUT",
    { guidance := "Set the timeout in seconds before the default entry boots." }),
   ("GRUB_THEME", { guidance := "Path to GRUB theme directory." })]

/-! ## C6: value cleansing -/
/-- Quote-state transition: `'` toggles single-quote state unless inside
double quotes; `"` toggles double-quote state unless inside single quotes. -/
def qstep (s : Bool × Bool) (c : Char) : Bool × Bool :=
  if c = '\'' ∧ ¬s.2 then (!s.1, s.2)
  else if c = '"' ∧ ¬s.1 then (s.1, !s.2)
  else s

/-- Quote state (in-single, in-double) after scanning a prefix from `s₀`. -/
def quoteStateFrom (s₀ : Bool × Bool) (l : List Char) : Bool × Bool :=
  l.foldl qstep s₀

/-- Spec-side characterization: the first index holding a `#` that lies
outside quotes, per left-to-right quote tracking from state `s₀`. -/
def specFirstHashFrom (s₀ : Bool × Bool) (l : List Char) : Option Nat :=
  (List.range l.length).find?
    (fun i => l.getD i ' ' = '#' ∧ quoteStateFrom s₀ (l.take i) = (false, false))

/-- The first unquoted `#` starting from the neutral state. -/
def specFirstHash (l : List Char) : Option Nat := specFirstHashFrom (false, false) l

/-- A small already-parsed state used to instantiate the write theorems. -/
def demoSt : GrubFile.GState :=
  { lines := ["GRUB_TIMEOUT=5\n"],
    param_of := [some "GRUB_TIMEOUT"],
    param_data := [("GRUB_TIMEOUT", ⟨some 0, "5", none, none⟩),
                   ("GRUB_THEME", GrubFile.absentDatum)],
    supported := demoSupported,
    extra := [] }

/-! ## C2: round-trip -/
/-- The parameter name an input line would be recognized as (if any). -/
def lineName (l : String) : Option String :=
  (GrubFile.parseAssign (pyStrip l)).map (fun x => x.2.1)

/-- The C2 input shape: every recognized assignment line claims a distinct
parameter name (all other lines are pass-through). -/
def DistinctClaims (input : List String) : Prop :=
  ∀ i j n, i < input.length → j < input.length → i ≠ j →
    lineName (input.getD i "") = some n → lineName (input.getD j "") = some n → False

/-- Loop invariant of the `read_file` scan for the C2 input shape, after
processing lines `< i`. -/
structure ReadInv (input : List String) (i : Nat) (st : GrubFile.GState) : Prop where
  lines_eq : st.lines = input
  pof_len : st.param_of.length = input.length
  pof_claims : ∀ j p, st.param_of.getD j none = some p →
    (dictGet st.param_data p).isSome = true
  data_inv : ∀ p d, dictGet st.param_data p = some d →
    d.new_value = none ∧
    ∀ k, d.line_num = some k → k < i ∧ lineName (input.getD k "") = some p
  sup_cov : ∀ pc ∈ st.supported, (dictGet st.param_data pc.1).isSome = true
  extra_sup : ∀ p, (dictGet st.extra p).isSome = true →
    (dictGet st.supported p).isSome = true

/-- The C2 witness input: comment, one assignment, a blank and a
non-matching line. -/
def inputW : List String :=
  ["# config\n", "GRUB_TIMEOUT=5 # seconds\n", "\n", "junk line\n"]

/-! ## C1: duplicate-assignment resolution -/
/-- The full recognition result of an input line. -/
def lineFull (l : String) : Option (Bool × String × String) :=
  GrubFile.parseAssign (pyStrip l)

/-- Line `k` is an uncommented assignment for `NAME`. -/
def uncAtB (input : List String) (NAME : String) (k : Nat) : Bool :=
  match lineFull (input.getD k "") with
  | some (false, n, _) => n == NAME
  | _ => false

/-- Line `k` is a commented assignment for `NAME`. -/
def comAtB (input : List String) (NAME : String) (k : Nat) : Bool :=
  match lineFull (input.getD k "") with
  | some (true, n, _) => n == NAME
  | _ => false

/-- The raw value part of line `k` (empty for non-assignment lines). -/
def valAt (input : List String) (k : Nat) : String :=
  match lineFull (input.getD k "") with
  | some (_, _, v) => v
  | none => ""

/-- The largest `k < n` satisfying `p`, scanning downward. -/
def lastSat (p : Nat → Bool) : Nat → Option Nat
  | 0 => none
  | n + 1 => if p n then some n else lastSat p n

/-- The `param_data[NAME]` entry the duplicate-resolution rule prescribes
after scanning lines `< i`: the last uncommented occurrence wins; with no
uncommented occurrence the last commented one holds a `COMMENT` claim with
its value out-of-band; with no occurrence at all the parameter is `ABSENT`. -/
def NameState (input : List String) (NAME : String) (i : Nat)
    (d : GrubFile.Datum) : Prop :=
  match lastSat (uncAtB input NAME) i with
  | some j => d.line_num = some j ∧
      d.value = GrubFile.cleanse (valAt input j) ∧ d.out_value = none
  | none =>
    match lastSat (comAtB input NAME) i with
    | some j => d.line_num = some j ∧ d.value = GrubFile.COMMENT ∧
        d.out_value = some (GrubFile.cleanse (valAt input j))
    | none => d.line_num = none ∧ d.value = GrubFile.ABSENT ∧ d.out_value = none

/-- Loop invariant for C1 (duplicate resolution for a fixed supported
parameter `NAME`), after processing lines `< i`. -/
structure C1Inv (input : List String) (NAME : String) (i : Nat)
    (st : GrubFile.GState) : Prop where
  lines_len : st.lines.length = input.length
  pof_len : st.param_of.length = input.length
  pof_claims : ∀ j p, st.param_of.getD j none = some p →
    (dictGet st.param_data p).isSome = true
  sup_cov : ∀ pc ∈ st.supported, (dictGet st.param_data pc.1).isSome = true
  extra_sup : ∀ p, (dictGet st.extra p).isSome = true →
    (dictGet st.supported p).isSome = true
  claims_own : ∀ p d, dictGet st.param_data p = some d → ∀ k, d.line_num = some k →
    k < i ∧ ∃ c v, lineFull (input.getD k "") = some (c, p, v)
  name_sup : (dictGet st.supported NAME).isSome = true
  name_state : ∃ d, dictGet st.param_data NAME = some d ∧ NameState input NAME i d
  lines_unc : ∀ k, uncAtB input NAME k = true →
    (lastSat (uncAtB input NAME) i = some k → st.lines.getD k "" = input.getD k "") ∧
    (k < i → lastSat (uncAtB input NAME) i ≠ some k →
      st.lines.getD k "" = "#" ++ input.getD k "") ∧
    (i ≤ k → st.lines.getD k "" = input.getD k "")
  lines_com : ∀ k, comAtB input NAME k = true → st.lines.getD k "" = input.getD k ""

/-- The C1 concrete input: two uncommented assignments to the same name. -/
def inputC1 : List String := ["GRUB_TIMEOUT=5\n", "GRUB_TIMEOUT=10\n"]

/-- The C4 scenario: boot-selection `saved`, save-default `false`. -/
def c4vals : List (String × String) :=
  [("GRUB_DEFAULT", "saved"), ("GRUB_SAVEDDEFAULT", "false")]

/-! ## C5: append-of-absent contract of `write_file` -/
/-- Total character count of a chunk list. -/
def sumLen (l : List (List Char)) : Nat := (l.map List.length).sum

/-- Spec-side rendition of C5's words: the lines of the block appended for
one supported parameter — for a parameter whose effective value at load
was `ABSENT` and whose pending value is a literal (not unset, not the
`COMMENT` sentinel), one blank line, then each 68-column-wrapped guidance
line prefixed with `# `, then `NAME=value\n`; otherwise no lines at all. -/
def GrubFile.specAppendLines (st : GrubFile.GState) (pc : String × GrubFile.Cfg) :
    List String :=
  match dictGet st.param_data pc.1 with
  | none => []
  | some data =>
    if data.value = GrubFile.ABSENT then
      match data.new_value with
      | none => []
      | some v =>
        if v = GrubFile.COMMENT then []
        else "\n" ::
          (pyWrap 68 pc.2.guidance).map (fun l => "# " ++ l ++ "\n") ++
          [pc.1 ++ "=" ++ v ++ "\n"]
    else []

/-- A 72-character single word used as guidance text. -/
def c5word : String := ⟨List.replicate 72 'x'⟩

/-- Metadata table whose single parameter's guidance is one 72-character
word. -/
def c5Supported : List (String × GrubFile.Cfg) :=
  [("GRUB_X", { default := "", guidance := c5word })]

/-- An already-parsed state with one kept line and one originally absent
parameter carrying a pending literal value. -/
def c5st : GrubFile.GState :=
  { lines := ["GRUB_TIMEOUT=5\n"],
    param_of := [some "GRUB_TIMEOUT"],
    param_data := [("GRUB_TIMEOUT", ⟨some 0, "5", none, none⟩),
                   ("GRUB_THEME", ⟨none, GrubFile.ABSENT, some "/boot/theme", none⟩)],
    supported := demoSupported,
    extra := [] }

/-! ### Theorems -/

theorem length_dropWhile_le {α : Type} (p : α → Bool) (l : List α) :
    (l.dropWhile p).length ≤ l.length := by
  induction l with
  | nil => simp
  | cons a t ih =>
    by_cases h : p a
    · rw [List.dropWhile_cons_of_pos h]
      simpa using Nat.le_succ_of_le ih
    · rw [List.dropWhile_cons_of_neg h]

theorem splitRunsF_congr :
    ∀ (f₁ f₂ : Nat) (l : List Char), l.length < f₁ → l.length < f₂ →
      splitRunsF f₁ l = splitRunsF f₂ l := by
  intro f₁
  induction f₁ with
  | zero => intro f₂ l h; cases h
  | succ f ih =>
    intro f₂ l h1 h2
    cases f₂ with
    | zero => cases h2
    | succ g =>
      cases l with
      | nil => rfl
      | cons c t =>
        rw [splitRunsF, splitRunsF]
        have hr := length_dropWhile_le (fun x => decide (isPyWs x = isPyWs c)) t
        simp only [List.length_cons] at h1 h2
        rw [ih g _ (by omega) (by omega)]

theorem splitRunsF_adequate (fuel : Nat) (l : List Char) (h : l.length < fuel) :
    splitRunsF fuel l = splitRuns l :=
  splitRunsF_congr fuel (l.length + 1) l h (Nat.lt_succ_self _)

theorem greedyTake_rest_le (width : Nat) :
    ∀ (t : List (List Char)) (n : Nat) (a : List (List Char)),
      ((greedyTake width n a t).2).length ≤ t.length := by
  intro t
  induction t with
  | nil => intro n a; simp [greedyTake]
  | cons c t ih =>
    intro n a
    rw [greedyTake]
    by_cases h : n + c.length ≤ width
    · rw [if_pos h]
      exact Nat.le_succ_of_le (ih _ _)
    · rw [if_neg h]

theorem handleLongWord_rest_le (width : Nat) (cur rest : List (List Char)) :
    ((handleLongWord width cur rest).2).length ≤ rest.length := by
  unfold handleLongWord
  cases rest with
  | nil => simp
  | cons c t =>
    dsimp only
    split
    · simp
    · simp

theorem wrapStep_rest_lt (width : Nat) (hl : Bool) (chunks : List (List Char))
    (h : chunks ≠ []) : ((wrapStep width hl chunks).2).length < chunks.length := by
  cases chunks with
  | nil => exact absurd rfl h
  | cons c t =>
    show ((handleLongWord width _ _).2).length < t.length + 1
    by_cases h1 : hl = true ∧ isWsChunk c = true
    · have hc1 : dropInitialWs hl (c :: t) = t := by simp [dropInitialWs, h1]
      rw [hc1]
      have := handleLongWord_rest_le width (greedyTake width 0 [] t).1 (greedyTake width 0 [] t).2
      have := greedyTake_rest_le width t 0 []
      omega
    · have hc1 : dropInitialWs hl (c :: t) = c :: t := by
        simp only [dropInitialWs]
        rw [if_neg]
        simpa using h1
      rw [hc1]
      by_cases h2 : 0 + c.length ≤ width
      · rw [greedyTake, if_pos h2]
        have := handleLongWord_rest_le width
          (greedyTake width (0 + c.length) [c] t).1 (greedyTake width (0 + c.length) [c] t).2
        have := greedyTake_rest_le width t (0 + c.length) [c]
        omega
      · rw [greedyTake, if_neg h2]
        have hlong : c.length > width := by omega
        simp [handleLongWord, hlong]

theorem wrapChunksF_congr :
    ∀ (f₁ f₂ : Nat) (width : Nat) (hl : Bool) (chunks : List (List Char)),
      chunks.length < f₁ → chunks.length < f₂ →
      wrapChunksF f₁ width hl chunks = wrapChunksF f₂ width hl chunks := by
  intro f₁
  induction f₁ with
  | zero => intro f₂ w hl chunks h; cases h
  | succ f ih =>
    intro f₂ w hl chunks h1 h2
    cases f₂ with
    | zero => cases h2
    | succ g =>
      cases hch : chunks with
      | nil => rfl
      | cons c t =>
        rw [wrapChunksF, wrapChunksF]
        have hlt := wrapStep_rest_lt w hl (c :: t) (by simp)
        cases hstep : wrapStep w hl (c :: t) with
        | mk line? rest =>
          rw [hstep] at hlt
          rw [hch] at h1 h2
          simp only [List.length_cons] at h1 h2 hlt
          cases line? with
          | some l =>
            show l :: wrapChunksF f w true rest = l :: wrapChunksF g w true rest
            rw [ih g w true rest (by omega) (by omega)]
          | none =>
            show wrapChunksF f w hl rest = wrapChunksF g w hl rest
            rw [ih g w hl rest (by omega) (by omega)]

theorem wrapChunksF_adequate (fuel width : Nat) (hl : Bool)
    (chunks : List (List Char)) (h : chunks.length < fuel) :
    wrapChunksF fuel width hl chunks = wrapChunks width hl chunks :=
  wrapChunksF_congr fuel (chunks.length + 1) width hl chunks h (Nat.lt_succ_self _)

namespace GrubFile

theorem parseGroupsF_congr :
    ∀ (f₁ f₂ : Nat) (l : List Char), l.length < f₁ → l.length < f₂ →
      parseGroupsF f₁ l = parseGroupsF f₂ l := by
  intro f₁
  induction f₁ with
  | zero => intro f₂ l h; cases h
  | succ f ih =>
    intro f₂ l h1 h2
    cases f₂ with
    | zero => cases h2
    | succ g =>
      cases l with
      | nil => rfl
      | cons c t =>
        rw [parseGroupsF, parseGroupsF]
        by_cases hc : c = '_'
        · rw [if_pos hc, if_pos hc]
          by_cases hu : (t.takeWhile (fun x => 'A' ≤ x ∧ x ≤ 'Z')).isEmpty = true
          · rw [if_pos hu, if_pos hu]
          · rw [if_neg hu, if_neg hu]
            have hr := length_dropWhile_le (fun x => decide ('A' ≤ x ∧ x ≤ 'Z')) t
            simp only [List.length_cons] at h1 h2
            rw [ih g _ (by omega) (by omega)]
        · rw [if_neg hc, if_neg hc]

theorem parseGroupsF_adequate (fuel : Nat) (l : List Char) (h : l.length < fuel) :
    parseGroupsF fuel l = parseGroups l :=
  parseGroupsF_congr fuel (l.length + 1) l h (Nat.lt_succ_self _)

end GrubFile

theorem specFirstHashFrom_cons (s : Bool × Bool) (c : Char) (t : List Char) :
    specFirstHashFrom s (c :: t) =
      if c = '#' ∧ s = (false, false) then some 0
      else (· + 1) <$> specFirstHashFrom (qstep s c) t := by
  unfold specFirstHashFrom
  rw [List.length_cons, List.range_succ_eq_map, List.find?_cons]
  have h0 : ((c :: t).getD 0 ' ' = '#' ∧
      quoteStateFrom s ((c :: t).take 0) = (false, false)) ↔
      (c = '#' ∧ s = (false, false)) := by
    simp [quoteStateFrom]
  by_cases hc : c = '#' ∧ s = (false, false)
  · rw [if_pos hc]
    have : (decide ((c :: t).getD 0 ' ' = '#' ∧
        quoteStateFrom s ((c :: t).take 0) = (false, false))) = true := by
      simp only [decide_eq_true_eq]
      exact h0.mpr hc
    rw [this]
  · rw [if_neg hc]
    have : (decide ((c :: t).getD 0 ' ' = '#' ∧
        quoteStateFrom s ((c :: t).take 0) = (false, false))) = false := by
      simp only [decide_eq_false_iff_not]
      exact fun h => hc (h0.mp h)
    rw [this, List.find?_map]
    have harg : ∀ i : Nat,
        (decide ((c :: t).getD (i + 1) ' ' = '#' ∧
          quoteStateFrom s ((c :: t).take (i + 1)) = (false, false))) =
        (decide (t.getD i ' ' = '#' ∧
          quoteStateFrom (qstep s c) (t.take i) = (false, false))) := by
      intro i
      simp [quoteStateFrom, List.take_succ_cons]
    have : (fun i => decide ((c :: t).getD i ' ' = '#' ∧
          quoteStateFrom s ((c :: t).take i) = (false, false))) ∘ Nat.succ =
        (fun i => decide (t.getD i ' ' = '#' ∧
          quoteStateFrom (qstep s c) (t.take i) = (false, false))) := by
      funext i
      exact harg i
    rw [this]
    rfl

theorem findUnquotedHash_eq_spec :
    ∀ (l : List Char) (sq dq : Bool),
      GrubFile.findUnquotedHash l sq dq = specFirstHashFrom (sq, dq) l := by
  intro l
  induction l with
  | nil => intro sq dq; rfl
  | cons c t ih =>
    intro sq dq
    rw [GrubFile.findUnquotedHash, specFirstHashFrom_cons]
    by_cases h1 : c = '\'' ∧ ¬(dq : Prop)
    · rw [if_pos h1]
      have hq : qstep (sq, dq) c = (!sq, dq) := by
        unfold qstep
        rw [if_pos]
        exact h1
      have hne : ¬(c = '#' ∧ (sq, dq) = (false, false)) := by
        rintro ⟨hc, -⟩
        rw [hc] at h1
        exact absurd h1.1 (by decide)
      rw [if_neg hne, hq, ih]
    · rw [if_neg h1]
      by_cases h2 : c = '"' ∧ ¬(sq : Prop)
      · rw [if_pos h2]
        have hq : qstep (sq, dq) c = (sq, !dq) := by
          unfold qstep
          rw [if_neg (fun h => h1 h), if_pos]
          exact h2
        have hne : ¬(c = '#' ∧ (sq, dq) = (false, false)) := by
          rintro ⟨hc, -⟩
          rw [hc] at h2
          exact absurd h2.1 (by decide)
        rw [if_neg hne, hq, ih]
      · rw [if_neg h2]
        by_cases h3 : c = '#' ∧ ¬(sq : Prop) ∧ ¬(dq : Prop)
        · rw [if_pos h3]
          have : c = '#' ∧ (sq, dq) = (false, false) := by
            refine ⟨h3.1, ?_⟩
            have hsq : sq = false := by
              cases sq
              · rfl
              · exact absurd rfl h3.2.1
            have hdq : dq = false := by
              cases dq
              · rfl
              · exact absurd rfl h3.2.2
            rw [hsq, hdq]
          rw [if_pos this]
        · rw [if_neg h3]
          have hq : qstep (sq, dq) c = (sq, dq) := by
            unfold qstep
            rw [if_neg (fun h => h1 h), if_neg (fun h => h2 h)]
          have hne : ¬(c = '#' ∧ (sq, dq) = (false, false)) := by
            rintro ⟨hc, hs⟩
            have hsq : sq = false := congrArg Prod.fst hs
            have hdq : dq = false := congrArg Prod.snd hs
            exact h3 ⟨hc, by rw [hsq]; exact (by decide), by rw [hdq]; exact (by decide)⟩
          rw [if_neg hne, hq, ih]

theorem dropWhile_self {α : Type} (p : α → Bool) (l : List α) :
    (l.dropWhile p).dropWhile p = l.dropWhile p := by
  induction l with
  | nil => rfl
  | cons a t ih =>
    by_cases h : p a
    · rw [List.dropWhile_cons_of_pos h]
      exact ih
    · rw [List.dropWhile_cons_of_neg h, List.dropWhile_cons_of_neg h]

theorem rstripL_idem (l : List Char) : rstripL (rstripL l) = rstripL l := by
  unfold rstripL
  rw [List.reverse_reverse, dropWhile_self]

theorem pyRstrip_pyStrip (v : String) : pyRstrip (pyStrip v) = pyStrip v := by
  unfold pyRstrip pyStrip
  show (⟨rstripL (rstripL (lstripL v.data))⟩ : String) = _
  rw [rstripL_idem]

/-- C6: `_cleanse` scans left to right tracking single- and double-quote
state and truncates at the first `#` found outside quotes, stripping
trailing whitespace; a `#` inside a quoted region is preserved (the
`"has #hash"` example); when the scan reaches the end without finding an
unquoted `#` — in particular with unbalanced quotes, where the quote state
is stuck open — the whole stripped value is returned without clipping. -/
theorem c6_cleanse_contract :
    (∀ v : String, GrubFile.cleanse v =
        (match specFirstHash (pyStrip v).data with
         | none => pyStrip v
         | some i => pyRstrip ⟨(pyStrip v).data.take i⟩)) ∧
    GrubFile.cleanse "\"has #hash\" # trailing" = "\"has #hash\"" ∧
    (∀ v : String, specFirstHash (pyStrip v).data = none →
      GrubFile.cleanse v = pyStrip v) := by
  have hmain : ∀ v : String, GrubFile.cleanse v =
      (match specFirstHash (pyStrip v).data with
       | none => pyStrip v
       | some i => pyRstrip ⟨(pyStrip v).data.take i⟩) := by
    intro v
    have hspec : GrubFile.findUnquotedHash (pyStrip v).data false false =
        specFirstHash (pyStrip v).data :=
      findUnquotedHash_eq_spec (pyStrip v).data false false
    cases hfs : specFirstHash (pyStrip v).data with
    | none =>
      show pyRstrip ⟨(pyStrip v).data.take
          ((GrubFile.findUnquotedHash (pyStrip v).data false false).getD
            (pyStrip v).data.length)⟩ = pyStrip v
      rw [hspec, hfs]
      show pyRstrip ⟨(pyStrip v).data.take (pyStrip v).data.length⟩ = pyStrip v
      rw [List.take_length]
      exact pyRstrip_pyStrip v
    | some i =>
      show pyRstrip ⟨(pyStrip v).data.take
          ((GrubFile.findUnquotedHash (pyStrip v).data false false).getD
            (pyStrip v).data.length)⟩ = pyRstrip ⟨(pyStrip v).data.take i⟩
      rw [hspec, hfs]
      rfl
  refine ⟨hmain, by decide, ?_⟩
  intro v hnone
  rw [hmain v, hnone]

/-- Witness for `c6_cleanse_contract`: the unbalanced-quote clause at the
concrete input `'abc # def` (single quote never closed). -/
theorem c6_cleanse_contract_witness :
    specFirstHash (pyStrip "'abc # def").data = none ∧
    GrubFile.cleanse "'abc # def" = pyStrip "'abc # def" :=
  ⟨by decide, c6_cleanse_contract.2.2 "'abc # def" (by decide)⟩

/-! ## C7: missing source file -/
/-- C7 (code-bug evidence): with a missing source file, construction itself
succeeds, but `_initialize_param_data` is inside the `try` block and never
runs, so `param_data` stays empty and `get_current_state` raises `KeyError`
(modeled `none`) for the supported parameter `GRUB_TIMEOUT` — it does not
return the `ABSENT` sentinel the documentation promises. -/
theorem c7_missing_file_behavior :
    GrubFile.read_file demoSupported gaNone none =
      .ok { lines := [], param_of := [], param_data := [],
            supported := demoSupported, extra := [] } ∧
    (dictGet demoSupported "GRUB_TIMEOUT").isSome = true ∧
    GrubFile.get_current_state
      { lines := [], param_of := [], param_data := [],
        supported := demoSupported, extra := [] } "GRUB_TIMEOUT" = none := by
  refine ⟨rfl, rfl, rfl⟩

/-! ## C8 / C10: the write path -/
theorem except_bind_ok {ε α β : Type} (a : α) (f : α → Except ε β) :
    (Except.ok a >>= f) = f a := rfl

theorem except_bind_error {ε α β : Type} (e : ε) (f : α → Except ε β) :
    ((Except.error e : Except ε α) >>= f) = Except.error e := rfl

/-- C8: when opening or writing the destination raises, `write_file`
returns `False` instead of propagating, and every in-memory structure
(`lines`, `param_of`, `param_data`, including pending `new_value`s) is
exactly as before the call, so the write can be retried. -/
theorem c8_write_failure_preserves_state :
    ∀ (st : GrubFile.GState) (nl : List (String × String)),
      GrubFile.writeNewLines st = .ok nl →
      GrubFile.write_file st false = .ok (false, none, st) := by
  intro st nl h
  unfold GrubFile.write_file
  rw [h, except_bind_ok]
  rfl

/-- Witness for `c8_write_failure_preserves_state` at `demoSt`. -/
theorem c8_write_failure_preserves_state_witness :
    GrubFile.writeNewLines demoSt = .ok [("=", "GRUB_TIMEOUT=5\n")] ∧
    GrubFile.write_file demoSt false = .ok (false, none, demoSt) :=
  ⟨by decide,
   c8_write_failure_preserves_state demoSt [("=", "GRUB_TIMEOUT=5\n")] (by decide)⟩

/-- C10: `write_file` computes its output from `lines`, `param_of` and
`param_data` without modifying any of them — the returned state is the
input state, the computed line sequence of the post-call state equals that
of the pre-call state, and a second call (same I/O outcome) is identical,
on success and on failure alike. -/
theorem c10_write_file_frame :
    ∀ (st : GrubFile.GState) (io b : Bool) (c : Option String)
      (st' : GrubFile.GState),
      GrubFile.write_file st io = .ok (b, c, st') →
      st' = st ∧ b = io ∧
      GrubFile.writeNewLines st' = GrubFile.writeNewLines st ∧
      GrubFile.write_file st' io = GrubFile.write_file st io := by
  intro st io b c st' h
  unfold GrubFile.write_file at h
  cases hnl : GrubFile.writeNewLines st with
  | error e =>
    rw [hnl, except_bind_error] at h
    exact absurd h (fun hh => by cases hh)
  | ok nl =>
    rw [hnl, except_bind_ok] at h
    cases io
    · have h' : (Except.ok (false, (none : Option String), st) :
          Except String (Bool × Option String × GrubFile.GState)) = .ok (b, c, st') := h
      simp only [Except.ok.injEq, Prod.mk.injEq] at h'
      obtain ⟨hb, hc, hst⟩ := h'
      subst hst
      exact ⟨rfl, hb.symm, hnl, rfl⟩
    · have h' : (Except.ok (true, some (String.join (nl.map (·.2))), st) :
          Except String (Bool × Option String × GrubFile.GState)) = .ok (b, c, st') := h
      simp only [Except.ok.injEq, Prod.mk.injEq] at h'
      obtain ⟨hb, hc, hst⟩ := h'
      subst hst
      exact ⟨rfl, hb.symm, hnl, rfl⟩

/-- Witness for `c10_write_file_frame` at `demoSt` with a successful write. -/
theorem c10_write_file_frame_witness :
    demoSt = demoSt ∧ true = true ∧
    GrubFile.writeNewLines demoSt = GrubFile.writeNewLines demoSt ∧
    GrubFile.write_file demoSt true = GrubFile.write_file demoSt true :=
  c10_write_file_frame demoSt true true (some "GRUB_TIMEOUT=5\n") demoSt (by decide)

/-! ## C9: the disk-layout prober -/
/-- C9: `probe_disk_layout` is memoized — with a populated cache it returns
the cached triple and does not invoke the enumeration; on any of the three
enumeration-failure modes it returns (and caches) all-false facts instead of
propagating an error; and after any first call on an empty cache, a later
call returns the first call's result without invoking the subprocess. -/
theorem c9_probe_disk_layout :
    (∀ (r : WizValidator.Layout) (o : WizValidator.LsblkOutcome),
        WizValidator.probe_disk_layout (some r) o = (r, some r, false)) ∧
    (∀ o : WizValidator.LsblkOutcome,
        (o = .toolMissing ∨ o = .exitNonZero ∨ o = .badJson) →
        WizValidator.probe_disk_layout none o = ({}, some {}, true)) ∧
    (∀ (o o' : WizValidator.LsblkOutcome) (r : WizValidator.Layout)
        (cache' : Option WizValidator.Layout) (invoked : Bool),
        WizValidator.probe_disk_layout none o = (r, cache', invoked) →
        WizValidator.probe_disk_layout cache' o' = (r, cache', false)) := by
  refine ⟨fun r o => rfl, ?_, ?_⟩
  · rintro o (rfl | rfl | rfl) <;> rfl
  · intro o o' r cache' invoked h
    cases o <;>
      (simp only [WizValidator.probe_disk_layout, Prod.mk.injEq] at h;
       obtain ⟨rfl, rfl, rfl⟩ := h;
       rfl)

/-- Witness for `c9_probe_disk_layout`: a failed first probe (bad JSON)
followed by a cache hit. -/
theorem c9_probe_disk_layout_witness :
    (WizValidator.probe_disk_layout (some { is_luks_active := true })
        (.ok []) = ({ is_luks_active := true }, some { is_luks_active := true }, false)) ∧
    ((WizValidator.LsblkOutcome.badJson = .toolMissing ∨
      WizValidator.LsblkOutcome.badJson = .exitNonZero ∨
      WizValidator.LsblkOutcome.badJson = .badJson) ∧
     WizValidator.probe_disk_layout none .badJson = ({}, some {}, true)) ∧
    WizValidator.probe_disk_layout (some {}) .toolMissing = ({}, some {}, false) :=
  ⟨c9_probe_disk_layout.1 { is_luks_active := true } (.ok []),
   ⟨Or.inr (Or.inr rfl), c9_probe_disk_layout.2.1 .badJson (Or.inr (Or.inr rfl))⟩,
   c9_probe_disk_layout.2.2 .badJson .toolMissing {} (some {}) true (by decide)⟩

/-! ## C3 / C4: `make_warns` totality -/
/-- C3 (amended): `make_warns` is *not* total — the very first check indexes
`vals['GRUB_DEFAULT']` directly, so any `vals` lacking that key raises
`KeyError` instead of treating the value as an empty string. -/
theorem c3_make_warns_keyerror :
    ∀ (pathEx : String → Bool) (layout : WizValidator.Layout)
      (param_cfg : List (String × WizValidator.PCfg))
      (vals : List (String × String)),
      dictGet vals "GRUB_DEFAULT" = none →
      WizValidator.make_warns pathEx layout param_cfg vals =
        .error "KeyError: GRUB_DEFAULT" := by
  intro pathEx layout param_cfg vals h
  unfold WizValidator.make_warns WizValidator.getVal
  rw [h, except_bind_error]
  rfl

/-- Counterexample to C3 as stated: on the empty mapping, `make_warns`
raises (`KeyError: GRUB_DEFAULT`) instead of returning normally. -/
theorem c3_counterexample_empty_vals :
    WizValidator.make_warns pxTrue {} [] [] = .error "KeyError: GRUB_DEFAULT" := by
  decide

/-- Witness for `c3_make_warns_keyerror` at a one-entry mapping missing
`GRUB_DEFAULT`. -/
theorem c3_make_warns_keyerror_witness :
    dictGet [("GRUB_TIMEOUT", "5")] "GRUB_DEFAULT" = none ∧
    WizValidator.make_warns pxTrue {} [] [("GRUB_TIMEOUT", "5")] =
      .error "KeyError: GRUB_DEFAULT" :=
  ⟨by decide, c3_make_warns_keyerror pxTrue {} [] [("GRUB_TIMEOUT", "5")] (by decide)⟩

/-! ## Dictionary and list-indexing lemmas -/
theorem dictGet_dictSet_self {α : Type} (l : List (String × α)) (k : String) (v : α) :
    dictGet (dictSet l k v) k = some v := by
  induction l with
  | nil => simp [dictSet, dictGet]
  | cons kv t ih =>
    by_cases h : kv.1 = k
    · simp [dictSet, dictGet, h]
    · simp only [dictSet, dictGet]
      rw [if_neg h, dictGet, if_neg h]
      exact ih

theorem dictGet_dictSet_ne {α : Type} (l : List (String × α)) (k k' : String) (v : α)
    (h : k' ≠ k) : dictGet (dictSet l k v) k' = dictGet l k' := by
  induction l with
  | nil =>
    show dictGet [(k, v)] k' = none
    rw [dictGet, if_neg (fun hh => h hh.symm)]
    rfl
  | cons kv t ih =>
    by_cases hk : kv.1 = k
    · simp only [dictSet]
      rw [if_pos hk, dictGet, if_neg (fun hh => h hh.symm), dictGet,
        if_neg (fun hh => h (by rw [← hh, hk]))]
    · simp only [dictSet]
      rw [if_neg hk, dictGet, dictGet]
      by_cases hk' : kv.1 = k'
      · rw [if_pos hk', if_pos hk']
      · rw [if_neg hk', if_neg hk']
        exact ih

theorem mem_dictSet {α : Type} (l : List (String × α)) (k : String) (v : α) :
    ∀ pc, pc ∈ dictSet l k v → pc = (k, v) ∨ pc ∈ l := by
  induction l with
  | nil => intro pc h; simp [dictSet] at h; exact Or.inl h
  | cons kv t ih =>
    intro pc h
    simp only [dictSet] at h
    by_cases hk : kv.1 = k
    · rw [if_pos hk] at h
      rcases List.mem_cons.mp h with h1 | h2
      · exact Or.inl h1
      · exact Or.inr (List.mem_cons_of_mem _ h2)
    · rw [if_neg hk] at h
      rcases List.mem_cons.mp h with h1 | h2
      · exact Or.inr (h1 ▸ List.mem_cons_self _ _)
      · rcases ih pc h2 with h3 | h4
        · exact Or.inl h3
        · exact Or.inr (List.mem_cons_of_mem _ h4)

theorem dictGet_initParamData (sup : List (String × GrubFile.Cfg)) (p : String) :
    dictGet (GrubFile.initParamData sup) p =
      (dictGet sup p).map (fun _ => GrubFile.absentDatum) := by
  induction sup with
  | nil => rfl
  | cons kv t ih =>
    show dictGet ((kv.1, GrubFile.absentDatum) :: GrubFile.initParamData t) p = _
    rw [dictGet, dictGet]
    by_cases h : kv.1 = p
    · rw [if_pos h, if_pos h]
      rfl
    · rw [if_neg h, if_neg h]
      exact ih

theorem getD_set_ne {α : Type} (l : List α) (i j : Nat) (a d : α) (h : i ≠ j) :
    (l.set i a).getD j d = l.getD j d := by
  induction l generalizing i j with
  | nil => simp
  | cons x t ih =>
    cases i with
    | zero =>
      cases j with
      | zero => exact absurd rfl h
      | succ j' => simp [List.set]
    | succ i' =>
      cases j with
      | zero => simp [List.set]
      | succ j' =>
        simp only [List.set, List.getD_cons_succ]
        exact ih i' j' (fun hh => h (by rw [hh]))

theorem getD_set_self {α : Type} (l : List α) (i : Nat) (a d : α) (h : i < l.length) :
    (l.set i a).getD i d = a := by
  induction l generalizing i with
  | nil => simp at h
  | cons x t ih =>
    cases i with
    | zero => rfl
    | succ i' =>
      simp only [List.set, List.getD_cons_succ]
      exact ih i' (by simpa using h)

theorem length_set' {α : Type} (l : List α) (i : Nat) (a : α) :
    (l.set i a).length = l.length := by simp

theorem getD_replicate_none {α : Type} (n j : Nat) :
    (List.replicate n (none : Option α)).getD j none = none := by
  induction n generalizing j with
  | zero => simp
  | succ n' ih =>
    cases j with
    | zero => rfl
    | succ j' =>
      simp only [List.replicate, List.getD_cons_succ]
      exact ih j'

theorem drop_cons_facts :
    ∀ (input : List String) (i : Nat) (l : String) (ls' : List String),
      input.drop i = l :: ls' →
      input.getD i "" = l ∧ input.drop (i + 1) = ls' ∧ i < input.length := by
  intro input
  induction input with
  | nil => intro i l ls' h; rw [List.drop_nil] at h; cases h
  | cons a rest ih =>
    intro i l ls' h
    cases i with
    | zero =>
      rw [List.drop_zero] at h
      cases h
      exact ⟨rfl, by rw [List.drop_succ_cons, List.drop_zero], by simp⟩
    | succ i' =>
      rw [List.drop_succ_cons] at h
      obtain ⟨h1, h2, h3⟩ := ih i' l ls' h
      refine ⟨h1, ?_, by simpa using Nat.succ_lt_succ h3⟩
      rw [List.drop_succ_cons]
      exact h2

theorem mem_of_dictGet {α : Type} (l : List (String × α)) (k : String) (v : α)
    (h : dictGet l k = some v) : (k, v) ∈ l := by
  induction l with
  | nil => cases h
  | cons kv t ih =>
    rw [dictGet] at h
    by_cases hk : kv.1 = k
    · rw [if_pos hk] at h
      cases h
      have hkv : kv = (k, kv.2) := by rw [← hk]
      rw [← hkv]
      exact List.mem_cons_self _ _
    · rw [if_neg hk] at h
      exact List.mem_cons_of_mem _ (ih h)

theorem dictGet_isSome_of_mem {α : Type} (l : List (String × α)) (pc : String × α)
    (h : pc ∈ l) : (dictGet l pc.1).isSome = true := by
  induction l with
  | nil => cases h
  | cons kv t ih =>
    rw [dictGet]
    by_cases hk : kv.1 = pc.1
    · rw [if_pos hk]
      rfl
    · rw [if_neg hk]
      rcases List.mem_cons.mp h with h1 | h2
      · exact absurd (by rw [h1]) hk
      · exact ih h2

theorem ReadInv.mono {input : List String} {i i' : Nat} {st : GrubFile.GState}
    (h : ReadInv input i st) (hle : i ≤ i') : ReadInv input i' st where
  lines_eq := h.lines_eq
  pof_len := h.pof_len
  pof_claims := h.pof_claims
  data_inv := fun p d hd =>
    ⟨(h.data_inv p d hd).1, fun k hk =>
      ⟨Nat.lt_of_lt_of_le ((h.data_inv p d hd).2 k hk).1 hle,
       ((h.data_inv p d hd).2 k hk).2⟩⟩
  sup_cov := h.sup_cov
  extra_sup := h.extra_sup

theorem readInv_init (input : List String) (supported : List (String × GrubFile.Cfg)) :
    ReadInv input 0
      { lines := input,
        param_of := List.replicate input.length none,
        param_data := GrubFile.initParamData supported,
        supported := supported,
        extra := [] } where
  lines_eq := rfl
  pof_len := List.length_replicate _ _
  pof_claims := fun j p hj => by
    rw [getD_replicate_none] at hj
    cases hj
  data_inv := fun p d hd => by
    rw [dictGet_initParamData] at hd
    cases hg : dictGet supported p with
    | none => rw [hg] at hd; cases hd
    | some cfg =>
      rw [hg] at hd
      cases hd
      exact ⟨rfl, fun k hk => by cases hk⟩
  sup_cov := fun pc hpc => by
    rw [dictGet_initParamData]
    cases hg : dictGet supported pc.1 with
    | none =>
      exfalso
      induction supported with
      | nil => cases hpc
      | cons kv t ih =>
        rw [dictGet] at hg
        rcases List.mem_cons.mp hpc with h1 | h2
        · rw [h1] at hg
          rw [if_pos rfl] at hg
          cases hg
        · by_cases hk : kv.1 = pc.1
          · rw [if_pos hk] at hg; cases hg
          · rw [if_neg hk] at hg
            exact ih h2 hg
    | some cfg => rfl
  extra_sup := fun p hp => by cases hp

theorem isSome_dictGet_dictSet {α : Type} (l : List (String × α)) (k p : String) (v : α)
    (h : (dictGet l p).isSome = true) : (dictGet (dictSet l k v) p).isSome = true := by
  by_cases hp : p = k
  · subst hp
    rw [dictGet_dictSet_self]
    rfl
  · rw [dictGet_dictSet_ne l k p v hp]
    exact h

theorem processLine_blank {ga : String → Bool} {st : GrubFile.GState} {i : Nat}
    {l : String} (hb : pyStrip l = "") : GrubFile.processLine ga st i l = .ok st := by
  simp only [GrubFile.processLine]
  rw [if_pos hb]

theorem processLine_nonmatch {ga : String → Bool} {st : GrubFile.GState} {i : Nat}
    {l : String} (hb : ¬ pyStrip l = "")
    (hpa : GrubFile.parseAssign (pyStrip l) = none) :
    GrubFile.processLine ga st i l = .ok st := by
  simp only [GrubFile.processLine]
  rw [if_neg hb, hpa]

theorem processLine_matched {ga : String → Bool} {st : GrubFile.GState} {i : Nat}
    {l : String} {isC : Bool} {param vp : String} (hb : ¬ pyStrip l = "")
    (hpa : GrubFile.parseAssign (pyStrip l) = some (isC, param, vp)) :
    GrubFile.processLine ga st i l = GrubFile.processMatched ga st i isC param vp := by
  simp only [GrubFile.processLine]
  rw [if_neg hb, hpa]

/-- The common "claim this line" update preserves the C2 invariant
(advancing the bound by one). -/
theorem claimLine_inv {input : List String} {i : Nat} {st1 : GrubFile.GState}
    {isC : Bool} {param vp : String} {data : GrubFile.Datum}
    (hinv1 : ReadInv input i st1)
    (hdata : dictGet st1.param_data param = some data)
    (hnew : data.new_value = none)
    (hname : lineName (input.getD i "") = some param)
    (hi : i < input.length) :
    ReadInv input (i + 1) (GrubFile.claimLine st1 i isC param vp data) where
  lines_eq := hinv1.lines_eq
  pof_len := by
    show (st1.param_of.set i (some param)).length = input.length
    rw [length_set']
    exact hinv1.pof_len
  pof_claims := by
    intro j p hj
    simp only [GrubFile.claimLine] at hj ⊢
    by_cases hij : i = j
    · subst hij
      rw [getD_set_self st1.param_of i (some param) none
        (by rw [hinv1.pof_len]; exact hi)] at hj
      cases hj
      rw [dictGet_dictSet_self]
      rfl
    · rw [getD_set_ne st1.param_of i j (some param) none hij] at hj
      exact isSome_dictGet_dictSet _ _ _ _ (hinv1.pof_claims j p hj)
  data_inv := by
    intro p d hd
    simp only [GrubFile.claimLine] at hd
    by_cases hp : p = param
    · subst hp
      rw [dictGet_dictSet_self] at hd
      cases hd
      refine ⟨hnew, fun k hk => ?_⟩
      cases hk
      exact ⟨Nat.lt_succ_self i, hname⟩
    · rw [dictGet_dictSet_ne st1.param_data param p _ hp] at hd
      obtain ⟨h1, h2⟩ := hinv1.data_inv p d hd
      exact ⟨h1, fun k hk =>
        ⟨Nat.lt_succ_of_lt (h2 k hk).1, (h2 k hk).2⟩⟩
  sup_cov := by
    intro pc hpc
    simp only [GrubFile.claimLine] at hpc ⊢
    exact isSome_dictGet_dictSet _ _ _ _ (hinv1.sup_cov pc hpc)
  extra_sup := hinv1.extra_sup

/-- The `discover` update preserves the C2 invariant. -/
theorem discover_inv {input : List String} {i : Nat} {st : GrubFile.GState}
    {param vp : String} (hinv : ReadInv input i st) :
    ReadInv input i (GrubFile.discover st i param vp) where
  lines_eq := hinv.lines_eq
  pof_len := hinv.pof_len
  pof_claims := by
    intro j p hj
    simp only [GrubFile.discover] at hj ⊢
    exact isSome_dictGet_dictSet _ _ _ _ (hinv.pof_claims j p hj)
  data_inv := by
    intro p d hd
    simp only [GrubFile.discover] at hd
    by_cases hp : p = param
    · subst hp
      rw [dictGet_dictSet_self] at hd
      cases hd
      exact ⟨rfl, fun k hk => by cases hk⟩
    · rw [dictGet_dictSet_ne st.param_data param p _ hp] at hd
      exact hinv.data_inv p d hd
  sup_cov := by
    intro pc hpc
    simp only [GrubFile.discover] at hpc ⊢
    rcases mem_dictSet _ _ _ pc hpc with h1 | h2
    · rw [h1]
      show (dictGet (dictSet st.param_data param _) param).isSome = true
      rw [dictGet_dictSet_self]
      rfl
    · exact isSome_dictGet_dictSet _ _ _ _ (hinv.sup_cov pc h2)
  extra_sup := by
    intro p hp
    simp only [GrubFile.discover] at hp ⊢
    by_cases hp' : p = param
    · subst hp'
      rw [dictGet_dictSet_self]
      rfl
    · rw [dictGet_dictSet_ne st.extra param p _ hp'] at hp
      exact isSome_dictGet_dictSet _ _ _ _ (hinv.extra_sup p hp)

/-- One step of the `read_file` loop under the C2 hypotheses: no error,
and the invariant advances.  The processed line is line `i` of the input. -/
theorem processLine_ok {input : List String} {ga : String → Bool} {i : Nat}
    {st : GrubFile.GState} (hdist : DistinctClaims input) (hi : i < input.length)
    (hinv : ReadInv input i st) :
    ∃ st', GrubFile.processLine ga st i (input.getD i "") = .ok st' ∧
      ReadInv input (i + 1) st' := by
  by_cases hb : pyStrip (input.getD i "") = ""
  · exact ⟨st, processLine_blank hb, hinv.mono (Nat.le_succ i)⟩
  cases hpa : GrubFile.parseAssign (pyStrip (input.getD i "")) with
  | none => exact ⟨st, processLine_nonmatch hb hpa, hinv.mono (Nat.le_succ i)⟩
  | some trip =>
    obtain ⟨isC, param, vp⟩ := trip
    have hname : lineName (input.getD i "") = some param := by
      unfold lineName
      rw [hpa]
      rfl
    rw [processLine_matched hb hpa]
    by_cases hskip : (dictGet st.supported param).isNone = true ∧ ga param = true
    · refine ⟨st, ?_, hinv.mono (Nat.le_succ i)⟩
      simp only [GrubFile.processMatched]
      rw [if_pos hskip]
    -- establish the post-discovery state and its facts
    by_cases hdisc : (dictGet st.supported param).isNone = true ∧
        (dictGet st.extra param).isNone = true
    · -- discovery path
      have hinv1 : ReadInv input i (GrubFile.discover st i param vp) :=
        discover_inv hinv
      have hdata : dictGet (GrubFile.discover st i param vp).param_data param =
          some GrubFile.absentDatum := dictGet_dictSet_self _ _ _
      refine ⟨GrubFile.claimLine (GrubFile.discover st i param vp) i isC param vp
          GrubFile.absentDatum, ?_,
        claimLine_inv hinv1 hdata rfl hname hi⟩
      simp only [GrubFile.processMatched]
      rw [if_neg hskip, if_pos hdisc, hdata]
      rfl
    · -- the parameter is already known (supported)
      have hsup : (dictGet st.supported param).isSome = true := by
        cases hg : dictGet st.supported param with
        | some cfg => rfl
        | none =>
          exfalso
          cases hg' : dictGet st.extra param with
          | none => exact hdisc ⟨by rw [hg]; rfl, by rw [hg']; rfl⟩
          | some cfg' =>
            have := hinv.extra_sup param (by rw [hg']; rfl)
            rw [hg] at this
            cases this
      obtain ⟨cfg, hcfg⟩ : ∃ cfg, dictGet st.supported param = some cfg := by
        cases hg : dictGet st.supported param with
        | some cfg => exact ⟨cfg, rfl⟩
        | none => rw [hg] at hsup; cases hsup
      have hpd : (dictGet st.param_data param).isSome = true :=
        hinv.sup_cov (param, cfg) (mem_of_dictGet _ _ _ hcfg)
      obtain ⟨data, hdata⟩ : ∃ d, dictGet st.param_data param = some d := by
        cases hg : dictGet st.param_data param with
        | some d => exact ⟨d, rfl⟩
        | none => rw [hg] at hpd; cases hpd
      obtain ⟨hnew, hln⟩ := hinv.data_inv param data hdata
      have hlnone : data.line_num = none := by
        cases hl : data.line_num with
        | none => rfl
        | some prev =>
          exfalso
          obtain ⟨hprev_lt, hprev_name⟩ := hln prev hl
          exact hdist prev i param (Nat.lt_trans hprev_lt hi) hi
            (Nat.ne_of_lt hprev_lt) hprev_name hname
      refine ⟨GrubFile.claimLine st i isC param vp data, ?_,
        claimLine_inv hinv hdata hnew hname hi⟩
      simp only [GrubFile.processMatched]
      rw [if_neg hskip, if_neg hdisc, hdata]
      dsimp only
      rw [hlnone]

/-- At or past the end of the input the invariant closes at `input.length`:
any claimed index carries a recognized line, which rules out out-of-range
indices (whose `getD` default `""` is not recognized). -/
theorem ReadInv.atEnd {input : List String} {i : Nat} {st : GrubFile.GState}
    (h : ReadInv input i st) : ReadInv input input.length st where
  lines_eq := h.lines_eq
  pof_len := h.pof_len
  pof_claims := h.pof_claims
  data_inv := by
    intro p d hd
    refine ⟨(h.data_inv p d hd).1, fun k hk => ?_⟩
    have hname := ((h.data_inv p d hd).2 k hk).2
    have hklt : k < input.length := by
      by_contra hkge
      push_neg at hkge
      rw [List.getD_eq_default _ _ hkge] at hname
      have : lineName "" = none := by decide
      rw [this] at hname
      cases hname
    exact ⟨hklt, hname⟩
  sup_cov := h.sup_cov
  extra_sup := h.extra_sup

theorem readLoop_ok {input : List String} {ga : String → Bool}
    (hdist : DistinctClaims input) :
    ∀ (ls : List String) (i : Nat) (st : GrubFile.GState),
      input.drop i = ls → ReadInv input i st →
      ∃ st', GrubFile.readLoop ga i ls st = .ok st' ∧
        ReadInv input input.length st' := by
  intro ls
  induction ls with
  | nil =>
    intro i st hdrop hinv
    exact ⟨st, rfl, hinv.atEnd⟩
  | cons l ls' ih =>
    intro i st hdrop hinv
    obtain ⟨hL, hdrop', hi⟩ := drop_cons_facts input i l ls' hdrop
    obtain ⟨st1, heq, hinv1⟩ := @processLine_ok input ga i st hdist hi hinv
    have heq' : GrubFile.processLine ga st i l = .ok st1 := by
      rw [← hL]
      exact heq
    obtain ⟨st', hloop, hinv'⟩ := ih (i + 1) st1 hdrop' hinv1
    refine ⟨st', ?_, hinv'⟩
    show GrubFile.readLoop ga i (l :: ls') st = .ok st'
    simp only [GrubFile.readLoop]
    rw [heq', except_bind_ok]
    exact hloop

theorem writeStage1_ok {st : GrubFile.GState}
    (hclaims : ∀ j p, st.param_of.getD j none = some p →
      ∃ d, dictGet st.param_data p = some d ∧ d.new_value = none) :
    ∀ (ls : List String) (i : Nat),
      ∃ out, GrubFile.writeStage1 st i ls = .ok out ∧ out.map (·.2) = ls := by
  intro ls
  induction ls with
  | nil => intro i; exact ⟨[], rfl, rfl⟩
  | cons line rest ih =>
    intro i
    obtain ⟨out, hout, hmap⟩ := ih (i + 1)
    cases hpo : st.param_of.getD i none with
    | none =>
      have hitem : GrubFile.writeLineItem st i line = .ok (some (" ", line)) := by
        simp only [GrubFile.writeLineItem, hpo]
      refine ⟨(" ", line) :: out, ?_, by simp [hmap]⟩
      simp only [GrubFile.writeStage1]
      rw [hitem, except_bind_ok, hout, except_bind_ok]
      rfl
    | some p =>
      obtain ⟨d, hd, hnew⟩ := hclaims i p hpo
      have hitem : GrubFile.writeLineItem st i line = .ok (some ("=", line)) := by
        simp only [GrubFile.writeLineItem, hpo, hd, hnew]
      refine ⟨("=", line) :: out, ?_, by simp [hmap]⟩
      simp only [GrubFile.writeStage1]
      rw [hitem, except_bind_ok, hout, except_bind_ok]
      rfl

theorem writeStage2_none {st : GrubFile.GState} :
    ∀ (sup : List (String × GrubFile.Cfg)),
      (∀ pc ∈ sup, ∃ d, dictGet st.param_data pc.1 = some d ∧ d.new_value = none) →
      GrubFile.writeStage2 st sup = .ok [] := by
  intro sup
  induction sup with
  | nil => intro _; rfl
  | cons pc rest ih =>
    intro hsup
    obtain ⟨d, hd, hnew⟩ := hsup pc (List.mem_cons_self _ _)
    have ih' := ih (fun pc' h => hsup pc' (List.mem_cons_of_mem _ h))
    have hblock : GrubFile.writeParamBlock st pc.1 pc.2 = .ok [] := by
      simp only [GrubFile.writeParamBlock, hd]
      by_cases hv : d.value = GrubFile.ABSENT
      · rw [if_pos hv, hnew]
      · rw [if_neg hv]
    obtain ⟨p, cfg⟩ := pc
    simp only [GrubFile.writeStage2]
    rw [hblock, except_bind_ok, ih', except_bind_ok]
    rfl

/-- C2: for every input whose lines are pass-through lines and assignment
lines each claiming a distinct parameter name at most once, parsing and
immediately writing back with no mutations reproduces the input
byte-for-byte. -/
theorem c2_roundtrip :
    ∀ (input : List String) (supported : List (String × GrubFile.Cfg))
      (ga : String → Bool),
      DistinctClaims input →
      ∃ st, GrubFile.read_file supported ga (some input) = .ok st ∧
        GrubFile.writeContent st = .ok (String.join input) := by
  intro input supported ga hdist
  obtain ⟨st, hloop, hinv⟩ := readLoop_ok hdist input 0
    { lines := input,
      param_of := List.replicate input.length none,
      param_data := GrubFile.initParamData supported,
      supported := supported,
      extra := [] }
    (List.drop_zero input) (readInv_init input supported)
  refine ⟨st, hloop, ?_⟩
  have hclaims : ∀ j p, st.param_of.getD j none = some p →
      ∃ d, dictGet st.param_data p = some d ∧ d.new_value = none := by
    intro j p hp
    have hs := hinv.pof_claims j p hp
    cases hd : dictGet st.param_data p with
    | none => rw [hd] at hs; cases hs
    | some d => exact ⟨d, rfl, (hinv.data_inv p d hd).1⟩
  obtain ⟨out, hout, hmap⟩ := writeStage1_ok hclaims st.lines 0
  have hsup : ∀ pc ∈ st.supported,
      ∃ d, dictGet st.param_data pc.1 = some d ∧ d.new_value = none := by
    intro pc hpc
    have hs := hinv.sup_cov pc hpc
    cases hd : dictGet st.param_data pc.1 with
    | none => rw [hd] at hs; cases hs
    | some d => exact ⟨d, rfl, (hinv.data_inv pc.1 d hd).1⟩
  have hs2 := writeStage2_none st.supported hsup
  have hnl : GrubFile.writeNewLines st = .ok (out ++ []) := by
    unfold GrubFile.writeNewLines
    rw [hout, except_bind_ok, hs2, except_bind_ok]
  unfold GrubFile.writeContent
  rw [hnl]
  have hred : (Except.map (fun nl => String.join (List.map (fun x => x.2) nl))
      (Except.ok (out ++ [])) : Except String String) =
      Except.ok (String.join (List.map (fun x => x.2) (out ++ []))) := rfl
  rw [hred, List.append_nil, hmap, hinv.lines_eq]

theorem inputW_distinct : DistinctClaims inputW := by
  have hnone : ∀ k, k < 4 → k ≠ 1 → lineName (inputW.getD k "") = none := by decide
  intro i j n hi hj hne h1 h2
  have hlen : inputW.length = 4 := rfl
  rw [hlen] at hi hj
  by_cases hi1 : i = 1
  · have hj1 : j ≠ 1 := fun h => hne (by rw [hi1, h])
    rw [hnone j hj hj1] at h2
    cases h2
  · rw [hnone i hi hi1] at h1
    cases h1

/-- Witness for `c2_roundtrip` at `inputW`. -/
theorem c2_roundtrip_witness :
    DistinctClaims inputW ∧
    ∃ st, GrubFile.read_file demoSupported gaNone (some inputW) = .ok st ∧
      GrubFile.writeContent st = .ok (String.join inputW) :=
  ⟨inputW_distinct, c2_roundtrip inputW demoSupported gaNone inputW_distinct⟩

theorem lastSat_eq_some_facts (p : Nat → Bool) :
    ∀ n k, lastSat p n = some k →
      p k = true ∧ k < n ∧ ∀ m, k < m → m < n → p m = false := by
  intro n
  induction n with
  | zero => intro k h; cases h
  | succ n' ih =>
    intro k h
    rw [lastSat] at h
    by_cases hp : p n' = true
    · rw [if_pos hp] at h
      cases h
      exact ⟨hp, Nat.lt_succ_self _, fun m h1 h2 => absurd (Nat.lt_of_succ_lt_succ
        (Nat.lt_of_le_of_lt (Nat.succ_le_of_lt h1) h2)) (Nat.lt_irrefl _)⟩
    · rw [if_neg hp] at h
      obtain ⟨hk, hlt, hmax⟩ := ih k h
      refine ⟨hk, Nat.lt_succ_of_lt hlt, fun m h1 h2 => ?_⟩
      rcases Nat.lt_succ_iff_lt_or_eq.mp h2 with h3 | h3
      · exact hmax m h1 h3
      · rw [h3]
        exact Bool.not_eq_true _ ▸ (by simpa using hp)

theorem lastSat_eq_none_facts (p : Nat → Bool) :
    ∀ n, lastSat p n = none → ∀ k, k < n → p k = false := by
  intro n
  induction n with
  | zero => intro _ k hk; cases hk
  | succ n' ih =>
    intro h k hk
    rw [lastSat] at h
    by_cases hp : p n' = true
    · rw [if_pos hp] at h
      cases h
    · rw [if_neg hp] at h
      rcases Nat.lt_succ_iff_lt_or_eq.mp hk with h3 | h3
      · exact ih h k h3
      · rw [h3]
        simpa using hp

theorem lastSat_intro (p : Nat → Bool) :
    ∀ n j, p j = true → j < n → (∀ m, j < m → m < n → p m = false) →
      lastSat p n = some j := by
  intro n
  induction n with
  | zero => intro j _ hj; cases hj
  | succ n' ih =>
    intro j hp hj hmax
    rw [lastSat]
    rcases Nat.lt_succ_iff_lt_or_eq.mp hj with h3 | h3
    · rw [if_neg (by rw [hmax n' h3 (Nat.lt_succ_self _)]; simp)]
      exact ih j hp h3 (fun m h1 h2 => hmax m h1 (Nat.lt_succ_of_lt h2))
    · subst h3
      rw [if_pos hp]

theorem uncAtB_elim {input : List String} {NAME : String} {k : Nat}
    (h : uncAtB input NAME k = true) :
    lineFull (input.getD k "") = some (false, NAME, valAt input k) := by
  unfold uncAtB at h
  unfold valAt
  cases hl : lineFull (input.getD k "") with
  | none => rw [hl] at h; cases h
  | some trip =>
    obtain ⟨c, n, v⟩ := trip
    rw [hl] at h
    cases c
    · have hb : (n == NAME) = true := h
      have hn : n = NAME := eq_of_beq hb
      subst hn
      rfl
    · cases h

theorem comAtB_elim {input : List String} {NAME : String} {k : Nat}
    (h : comAtB input NAME k = true) :
    lineFull (input.getD k "") = some (true, NAME, valAt input k) := by
  unfold comAtB at h
  unfold valAt
  cases hl : lineFull (input.getD k "") with
  | none => rw [hl] at h; cases h
  | some trip =>
    obtain ⟨c, n, v⟩ := trip
    rw [hl] at h
    cases c
    · cases h
    · have hb : (n == NAME) = true := h
      have hn : n = NAME := eq_of_beq hb
      subst hn
      rfl

theorem uncAtB_of_lineFull {input : List String} {NAME v : String} {k : Nat}
    (h : lineFull (input.getD k "") = some (false, NAME, v)) :
    uncAtB input NAME k = true := by
  unfold uncAtB
  rw [h]
  simp

theorem comAtB_of_lineFull {input : List String} {NAME v : String} {k : Nat}
    (h : lineFull (input.getD k "") = some (true, NAME, v)) :
    comAtB input NAME k = true := by
  unfold comAtB
  rw [h]
  simp

theorem valAt_of_lineFull {input : List String} {NAME v : String} {c : Bool} {k : Nat}
    (h : lineFull (input.getD k "") = some (c, NAME, v)) : valAt input k = v := by
  unfold valAt
  rw [h]

theorem notNameOcc {input : List String} {NAME p v : String} {c : Bool} {k : Nat}
    (h : lineFull (input.getD k "") = some (c, p, v)) (hne : p ≠ NAME) :
    uncAtB input NAME k = false ∧ comAtB input NAME k = false := by
  unfold uncAtB comAtB
  rw [h]
  cases c
  · exact ⟨by simpa using hne, rfl⟩
  · exact ⟨rfl, by simpa using hne⟩

theorem noOcc_of_none {input : List String} {NAME : String} {k : Nat}
    (h : lineFull (input.getD k "") = none) :
    uncAtB input NAME k = false ∧ comAtB input NAME k = false := by
  unfold uncAtB comAtB
  rw [h]
  exact ⟨rfl, rfl⟩

/-- Advancing the C1 invariant over a line that is not an occurrence of
`NAME` and leaves the state untouched. -/
theorem C1Inv.stepNoOcc {input : List String} {NAME : String} {i : Nat}
    {st : GrubFile.GState} (h : C1Inv input NAME i st)
    (hu : uncAtB input NAME i = false) (hc : comAtB input NAME i = false) :
    C1Inv input NAME (i + 1) st where
  lines_len := h.lines_len
  pof_len := h.pof_len
  pof_claims := h.pof_claims
  sup_cov := h.sup_cov
  extra_sup := h.extra_sup
  claims_own := fun p d hd k hk =>
    ⟨Nat.lt_succ_of_lt ((h.claims_own p d hd k hk).1), (h.claims_own p d hd k hk).2⟩
  name_sup := h.name_sup
  name_state := by
    obtain ⟨d, hd, hs⟩ := h.name_state
    refine ⟨d, hd, ?_⟩
    unfold NameState at hs ⊢
    rw [lastSat, if_neg (by rw [hu]; simp), lastSat, if_neg (by rw [hc]; simp)]
    exact hs
  lines_unc := by
    intro k hk
    have hs := h.lines_unc k hk
    rw [lastSat, if_neg (by rw [hu]; simp)]
    refine ⟨hs.1, fun hki hne => ?_, fun hik => hs.2.2 (Nat.le_of_succ_le hik)⟩
    rcases Nat.lt_succ_iff_lt_or_eq.mp hki with h3 | h3
    · exact hs.2.1 h3 hne
    · rw [h3] at hk
      rw [hk] at hu
      cases hu
  lines_com := h.lines_com

/-- Advancing the C1 invariant over a commented occurrence that is skipped
because the current claim is an uncommented line. -/
theorem C1Inv.stepComSkip {input : List String} {NAME : String} {i j : Nat}
    {st : GrubFile.GState} (h : C1Inv input NAME i st)
    (hu : uncAtB input NAME i = false)
    (hlu : lastSat (uncAtB input NAME) i = some j) :
    C1Inv input NAME (i + 1) st where
  lines_len := h.lines_len
  pof_len := h.pof_len
  pof_claims := h.pof_claims
  sup_cov := h.sup_cov
  extra_sup := h.extra_sup
  claims_own := fun p d hd k hk =>
    ⟨Nat.lt_succ_of_lt ((h.claims_own p d hd k hk).1), (h.claims_own p d hd k hk).2⟩
  name_sup := h.name_sup
  name_state := by
    obtain ⟨d, hd, hs⟩ := h.name_state
    refine ⟨d, hd, ?_⟩
    unfold NameState at hs ⊢
    rw [lastSat, if_neg (by rw [hu]; simp), hlu]
    rw [hlu] at hs
    exact hs
  lines_unc := by
    intro k hk
    have hs := h.lines_unc k hk
    rw [lastSat, if_neg (by rw [hu]; simp)]
    refine ⟨hs.1, fun hki hne => ?_, fun hik => hs.2.2 (Nat.le_of_succ_le hik)⟩
    rcases Nat.lt_succ_iff_lt_or_eq.mp hki with h3 | h3
    · exact hs.2.1 h3 hne
    · rw [h3] at hk
      rw [hk] at hu
      cases hu
  lines_com := h.lines_com

/-- `discover` for a parameter other than `NAME` preserves the C1 invariant. -/
theorem C1Inv.discover {input : List String} {NAME : String} {i : Nat}
    {st : GrubFile.GState} (p vp : String) (h : C1Inv input NAME i st)
    (hne : p ≠ NAME) : C1Inv input NAME i (GrubFile.discover st i p vp) where
  lines_len := h.lines_len
  pof_len := h.pof_len
  pof_claims := by
    intro j q hj
    simp only [GrubFile.discover] at hj ⊢
    exact isSome_dictGet_dictSet _ _ _ _ (h.pof_claims j q hj)
  sup_cov := by
    intro pc hpc
    simp only [GrubFile.discover] at hpc ⊢
    rcases mem_dictSet _ _ _ pc hpc with h1 | h2
    · rw [h1]
      show (dictGet (dictSet st.param_data p _) p).isSome = true
      rw [dictGet_dictSet_self]
      rfl
    · exact isSome_dictGet_dictSet _ _ _ _ (h.sup_cov pc h2)
  extra_sup := by
    intro q hq
    simp only [GrubFile.discover] at hq ⊢
    by_cases hq' : q = p
    · subst hq'
      rw [dictGet_dictSet_self]
      rfl
    · rw [dictGet_dictSet_ne st.extra p q _ hq'] at hq
      exact isSome_dictGet_dictSet _ _ _ _ (h.extra_sup q hq)
  claims_own := by
    intro q d hd k hk
    simp only [GrubFile.discover] at hd
    by_cases hq : q = p
    · subst hq
      rw [dictGet_dictSet_self] at hd
      cases hd
      cases hk
    · rw [dictGet_dictSet_ne st.param_data p q _ hq] at hd
      exact h.claims_own q d hd k hk
  name_sup := by
    simp only [GrubFile.discover]
    exact isSome_dictGet_dictSet _ _ _ _ h.name_sup
  name_state := by
    obtain ⟨d, hd, hs⟩ := h.name_state
    refine ⟨d, ?_, hs⟩
    simp only [GrubFile.discover]
    rw [dictGet_dictSet_ne st.param_data p NAME _ (fun hh => hne hh.symm)]
    exact hd
  lines_unc := h.lines_unc
  lines_com := h.lines_com

theorem set_of_length_le {α : Type} (l : List α) (i : Nat) (a : α)
    (h : l.length ≤ i) : l.set i a = l := by
  induction l generalizing i with
  | nil => rfl
  | cons x t ih =>
    cases i with
    | zero => simp at h
    | succ i' =>
      show x :: t.set i' a = x :: t
      rw [ih i' (by simpa using h)]

/-- Rewriting the buffer at a non-`NAME` index and clearing its claim
preserves the C1 invariant. -/
theorem C1Inv.clearOther {input : List String} {NAME : String} {i : Nat}
    {st : GrubFile.GState} (prev : Nat) (newlines : List String)
    (h : C1Inv input NAME i st)
    (hu : uncAtB input NAME prev = false) (hc : comAtB input NAME prev = false)
    (hlines : ∀ k, k ≠ prev → newlines.getD k "" = st.lines.getD k "")
    (hlen : newlines.length = st.lines.length) :
    C1Inv input NAME i
      { st with lines := newlines, param_of := st.param_of.set prev none } where
  lines_len := by
    show newlines.length = input.length
    rw [hlen]
    exact h.lines_len
  pof_len := by
    show (st.param_of.set prev none).length = input.length
    rw [length_set']
    exact h.pof_len
  pof_claims := by
    intro j q hj
    show (dictGet st.param_data q).isSome = true
    by_cases hj' : prev = j
    · subst hj'
      by_cases hlt : prev < st.param_of.length
      · rw [getD_set_self st.param_of prev none none hlt] at hj
        cases hj
      · rw [set_of_length_le st.param_of prev none (Nat.le_of_not_lt hlt)] at hj
        exact h.pof_claims prev q hj
    · rw [getD_set_ne st.param_of prev j none none hj'] at hj
      exact h.pof_claims j q hj
  sup_cov := h.sup_cov
  extra_sup := h.extra_sup
  claims_own := h.claims_own
  name_sup := h.name_sup
  name_state := h.name_state
  lines_unc := by
    intro k hk
    have hkp : k ≠ prev := fun hh => by rw [hh] at hk; rw [hk] at hu; cases hu
    dsimp only
    rw [hlines k hkp]
    exact h.lines_unc k hk
  lines_com := by
    intro k hk
    have hkp : k ≠ prev := fun hh => by rw [hh] at hk; rw [hk] at hc; cases hc
    dsimp only
    rw [hlines k hkp]
    exact h.lines_com k hk

theorem uncAtB_com_exclusive {input : List String} {NAME : String} {k : Nat}
    (h : uncAtB input NAME k = true) : comAtB input NAME k = false := by
  have hl := uncAtB_elim h
  unfold comAtB
  rw [hl]

theorem uncAtB_false_of_comLine {input : List String} {NAME v : String} {k : Nat}
    (h : lineFull (input.getD k "") = some (true, NAME, v)) :
    uncAtB input NAME k = false := by
  unfold uncAtB
  rw [h]

/-- Claiming line `i` for `NAME` when no earlier uncommented occurrence
exists (the `line_num = None` path, or superseding a commented claim). -/
theorem claimName_noUnc {input : List String} {NAME vp : String} {isC : Bool}
    {i : Nat} {st2 : GrubFile.GState} {d : GrubFile.Datum}
    (h : C1Inv input NAME i st2)
    (hlu : lastSat (uncAtB input NAME) i = none)
    (hlf : lineFull (input.getD i "") = some (isC, NAME, vp))
    (hi : i < input.length)
    (hd : dictGet st2.param_data NAME = some d) :
    C1Inv input NAME (i + 1) (GrubFile.claimLine st2 i isC NAME vp d) where
  lines_len := h.lines_len
  pof_len := by
    show (st2.param_of.set i (some NAME)).length = input.length
    rw [length_set']
    exact h.pof_len
  pof_claims := by
    intro j p hj
    simp only [GrubFile.claimLine] at hj ⊢
    by_cases hij : i = j
    · subst hij
      rw [getD_set_self st2.param_of i (some NAME) none
        (by rw [h.pof_len]; exact hi)] at hj
      cases hj
      rw [dictGet_dictSet_self]
      rfl
    · rw [getD_set_ne st2.param_of i j (some NAME) none hij] at hj
      exact isSome_dictGet_dictSet _ _ _ _ (h.pof_claims j p hj)
  sup_cov := by
    intro pc hpc
    simp only [GrubFile.claimLine] at hpc ⊢
    exact isSome_dictGet_dictSet _ _ _ _ (h.sup_cov pc hpc)
  extra_sup := h.extra_sup
  claims_own := by
    intro p d' hd' k hk
    simp only [GrubFile.claimLine] at hd'
    by_cases hp : p = NAME
    · subst hp
      rw [dictGet_dictSet_self] at hd'
      cases hd'
      cases hk
      exact ⟨Nat.lt_succ_self i, isC, vp, hlf⟩
    · rw [dictGet_dictSet_ne st2.param_data NAME p _ hp] at hd'
      obtain ⟨h1, h2⟩ := h.claims_own p d' hd' k hk
      exact ⟨Nat.lt_succ_of_lt h1, h2⟩
  name_sup := h.name_sup
  name_state := by
    refine ⟨_, by simp only [GrubFile.claimLine]; exact dictGet_dictSet_self _ _ _, ?_⟩
    unfold NameState
    have hval : valAt input i = vp := valAt_of_lineFull hlf
    cases isC
    · have hu : uncAtB input NAME i = true := uncAtB_of_lineFull hlf
      rw [lastSat, if_pos hu]
      exact ⟨rfl, (congrArg GrubFile.cleanse hval).symm, rfl⟩
    · have hu : uncAtB input NAME i = false := uncAtB_false_of_comLine hlf
      have hcm : comAtB input NAME i = true := comAtB_of_lineFull hlf
      rw [lastSat, if_neg (by rw [hu]; simp), hlu, lastSat, if_pos hcm]
      exact ⟨rfl, rfl, congrArg (fun x => some (GrubFile.cleanse x)) hval.symm⟩
  lines_unc := by
    intro k hk
    have hnone := lastSat_eq_none_facts (uncAtB input NAME) i hlu
    have hlines : (GrubFile.claimLine st2 i isC NAME vp d).lines = st2.lines := rfl
    rw [hlines]
    cases isC
    · have hu : uncAtB input NAME i = true := uncAtB_of_lineFull hlf
      rw [lastSat, if_pos hu]
      refine ⟨fun hsk => ?_, fun hki hne => ?_, fun hik => ?_⟩
      · cases hsk
        exact (h.lines_unc i hu).2.2 (Nat.le_refl i)
      · rcases Nat.lt_succ_iff_lt_or_eq.mp hki with h3 | h3
        · rw [hnone k h3] at hk
          cases hk
        · exact absurd (by rw [h3]) hne
      · exact (h.lines_unc k hk).2.2 (Nat.le_of_succ_le hik)
    · have hu : uncAtB input NAME i = false := uncAtB_false_of_comLine hlf
      rw [lastSat, if_neg (by rw [hu]; simp), hlu]
      refine ⟨fun hsk => Option.noConfusion hsk, fun hki hne => ?_, fun hik => ?_⟩
      · rcases Nat.lt_succ_iff_lt_or_eq.mp hki with h3 | h3
        · rw [hnone k h3] at hk
          cases hk
        · rw [h3] at hk
          rw [hk] at hu
          cases hu
      · exact (h.lines_unc k hk).2.2 (Nat.le_of_succ_le hik)
  lines_com := by
    intro k hk
    have hlines : (GrubFile.claimLine st2 i isC NAME vp d).lines = st2.lines := rfl
    rw [hlines]
    exact h.lines_com k hk

/-- Claiming line `i` for `NAME` when it supersedes an earlier uncommented
claim at line `j`, which is demoted with a leading `#`. -/
theorem claimName_unc {input : List String} {NAME vp : String}
    {i j : Nat} {st : GrubFile.GState} {d : GrubFile.Datum}
    (h : C1Inv input NAME i st)
    (hlu : lastSat (uncAtB input NAME) i = some j)
    (hlf : lineFull (input.getD i "") = some (false, NAME, vp))
    (hi : i < input.length)
    (hd : dictGet st.param_data NAME = some d) :
    C1Inv input NAME (i + 1)
      (GrubFile.claimLine
        { st with lines := st.lines.set j ("#" ++ st.lines.getD j ""),
                  param_of := st.param_of.set j none }
        i false NAME vp d) := by
  obtain ⟨huj, hji, hmax⟩ := lastSat_eq_some_facts _ i j hlu
  have hne_ij : i ≠ j := fun hh => Nat.lt_irrefl i (hh ▸ hji)
  have hgdj : st.lines.getD j "" = input.getD j "" := (h.lines_unc j huj).1 hlu
  have hu_i : uncAtB input NAME i = true := uncAtB_of_lineFull hlf
  have hval : valAt input i = vp := valAt_of_lineFull hlf
  have hjlen : j < st.lines.length := by
    rw [h.lines_len]
    exact Nat.lt_trans hji hi
  exact {
    lines_len := by
      show (st.lines.set j _).length = input.length
      rw [length_set']
      exact h.lines_len
    pof_len := by
      show ((st.param_of.set j none).set i (some NAME)).length = input.length
      rw [length_set', length_set']
      exact h.pof_len
    pof_claims := by
      intro k p hk
      simp only [GrubFile.claimLine] at hk ⊢
      by_cases hik : i = k
      · subst hik
        rw [getD_set_self (st.param_of.set j none) i (some NAME) none
          (by rw [length_set', h.pof_len]; exact hi)] at hk
        cases hk
        rw [dictGet_dictSet_self]
        rfl
      · rw [getD_set_ne (st.param_of.set j none) i k (some NAME) none hik] at hk
        by_cases hjk : j = k
        · subst hjk
          rw [getD_set_self st.param_of j none none
            (by rw [h.pof_len]; exact Nat.lt_trans hji hi)] at hk
          cases hk
        · rw [getD_set_ne st.param_of j k none none hjk] at hk
          exact isSome_dictGet_dictSet _ _ _ _ (h.pof_claims k p hk)
    sup_cov := by
      intro pc hpc
      simp only [GrubFile.claimLine] at hpc ⊢
      exact isSome_dictGet_dictSet _ _ _ _ (h.sup_cov pc hpc)
    extra_sup := h.extra_sup
    claims_own := by
      intro p d' hd' k hk
      simp only [GrubFile.claimLine] at hd'
      by_cases hp : p = NAME
      · subst hp
        rw [dictGet_dictSet_self] at hd'
        cases hd'
        cases hk
        exact ⟨Nat.lt_succ_self i, false, vp, hlf⟩
      · rw [dictGet_dictSet_ne st.param_data NAME p _ hp] at hd'
        obtain ⟨h1, h2⟩ := h.claims_own p d' hd' k hk
        exact ⟨Nat.lt_succ_of_lt h1, h2⟩
    name_sup := h.name_sup
    name_state := by
      refine ⟨_, by simp only [GrubFile.claimLine]; exact dictGet_dictSet_self _ _ _, ?_⟩
      unfold NameState
      rw [lastSat, if_pos hu_i]
      exact ⟨rfl, (congrArg GrubFile.cleanse hval).symm, rfl⟩
    lines_unc := by
      intro k hk
      have hlines : (GrubFile.claimLine
          { st with lines := st.lines.set j ("#" ++ st.lines.getD j ""),
                    param_of := st.param_of.set j none }
          i false NAME vp d).lines = st.lines.set j ("#" ++ st.lines.getD j "") := rfl
      rw [hlines, lastSat, if_pos hu_i]
      refine ⟨fun hsk => ?_, fun hki hne => ?_, fun hik => ?_⟩
      · cases hsk
        rw [getD_set_ne st.lines j i _ "" (fun hh => hne_ij hh.symm)]
        exact (h.lines_unc i hu_i).2.2 (Nat.le_refl i)
      · rcases Nat.lt_succ_iff_lt_or_eq.mp hki with h3 | h3
        · by_cases hjk : j = k
          · subst hjk
            rw [getD_set_self st.lines j _ "" hjlen, hgdj]
          · rw [getD_set_ne st.lines j k _ "" hjk]
            exact (h.lines_unc k hk).2.1 h3
              (fun hh => hjk (Option.some.inj (hlu ▸ hh).symm).symm)
        · exact absurd (by rw [h3]) hne
      · have hjk : j ≠ k := fun hh =>
          Nat.lt_irrefl j (Nat.lt_of_lt_of_le (Nat.lt_trans hji (Nat.lt_succ_self i))
            (hh ▸ hik))
        rw [getD_set_ne st.lines j k _ "" hjk]
        exact (h.lines_unc k hk).2.2 (Nat.le_of_succ_le hik)
    lines_com := by
      intro k hk
      have hlines : (GrubFile.claimLine
          { st with lines := st.lines.set j ("#" ++ st.lines.getD j ""),
                    param_of := st.param_of.set j none }
          i false NAME vp d).lines = st.lines.set j ("#" ++ st.lines.getD j "") := rfl
      rw [hlines]
      have hjk : j ≠ k := fun hh => by
        rw [hh] at huj
        rw [uncAtB_com_exclusive huj] at hk
        cases hk
      rw [getD_set_ne st.lines j k _ "" hjk]
      exact h.lines_com k hk
  }

/-- Clearing a claim in `param_of` (without touching the line buffer)
preserves the C1 invariant. -/
theorem C1Inv.clearPof {input : List String} {NAME : String} {i : Nat}
    {st : GrubFile.GState} (prev : Nat) (h : C1Inv input NAME i st) :
    C1Inv input NAME i { st with param_of := st.param_of.set prev none } where
  lines_len := h.lines_len
  pof_len := by
    show (st.param_of.set prev none).length = input.length
    rw [length_set']
    exact h.pof_len
  pof_claims := by
    intro j q hj
    show (dictGet st.param_data q).isSome = true
    by_cases hj' : prev = j
    · subst hj'
      by_cases hlt : prev < st.param_of.length
      · rw [getD_set_self st.param_of prev none none hlt] at hj
        cases hj
      · rw [set_of_length_le st.param_of prev none (Nat.le_of_not_lt hlt)] at hj
        exact h.pof_claims prev q hj
    · rw [getD_set_ne st.param_of prev j none none hj'] at hj
      exact h.pof_claims j q hj
  sup_cov := h.sup_cov
  extra_sup := h.extra_sup
  claims_own := h.claims_own
  name_sup := h.name_sup
  name_state := h.name_state
  lines_unc := h.lines_unc
  lines_com := h.lines_com

/-- Claiming line `i` for a parameter other than `NAME` preserves the C1
invariant (the line is not an occurrence of `NAME`). -/
theorem claimOther {input : List String} {NAME p vp : String} {isC : Bool}
    {i : Nat} {st2 : GrubFile.GState} {data : GrubFile.Datum}
    (h : C1Inv input NAME i st2)
    (hlf : lineFull (input.getD i "") = some (isC, p, vp))
    (hpn : p ≠ NAME) (hi : i < input.length) :
    C1Inv input NAME (i + 1) (GrubFile.claimLine st2 i isC p vp data) := by
  obtain ⟨hu_i, hc_i⟩ := notNameOcc hlf hpn
  exact {
    lines_len := h.lines_len
    pof_len := by
      show (st2.param_of.set i (some p)).length = input.length
      rw [length_set']
      exact h.pof_len
    pof_claims := by
      intro j q hj
      simp only [GrubFile.claimLine] at hj ⊢
      by_cases hij : i = j
      · subst hij
        rw [getD_set_self st2.param_of i (some p) none
          (by rw [h.pof_len]; exact hi)] at hj
        cases hj
        rw [dictGet_dictSet_self]
        rfl
      · rw [getD_set_ne st2.param_of i j (some p) none hij] at hj
        exact isSome_dictGet_dictSet _ _ _ _ (h.pof_claims j q hj)
    sup_cov := by
      intro pc hpc
      simp only [GrubFile.claimLine] at hpc ⊢
      exact isSome_dictGet_dictSet _ _ _ _ (h.sup_cov pc hpc)
    extra_sup := h.extra_sup
    claims_own := by
      intro q d' hd' k hk
      simp only [GrubFile.claimLine] at hd'
      by_cases hq : q = p
      · subst hq
        rw [dictGet_dictSet_self] at hd'
        cases hd'
        cases hk
        exact ⟨Nat.lt_succ_self i, isC, vp, hlf⟩
      · rw [dictGet_dictSet_ne st2.param_data p q _ hq] at hd'
        obtain ⟨h1, h2⟩ := h.claims_own q d' hd' k hk
        exact ⟨Nat.lt_succ_of_lt h1, h2⟩
    name_sup := h.name_sup
    name_state := by
      obtain ⟨d, hd, hs⟩ := h.name_state
      refine ⟨d, ?_, ?_⟩
      · simp only [GrubFile.claimLine]
        rw [dictGet_dictSet_ne st2.param_data p NAME _ (fun hh => hpn hh.symm)]
        exact hd
      · unfold NameState at hs ⊢
        rw [lastSat, if_neg (by rw [hu_i]; simp), lastSat, if_neg (by rw [hc_i]; simp)]
        exact hs
    lines_unc := by
      intro k hk
      have hlines : (GrubFile.claimLine st2 i isC p vp data).lines = st2.lines := rfl
      rw [hlines, lastSat, if_neg (by rw [hu_i]; simp)]
      have hs := h.lines_unc k hk
      refine ⟨hs.1, fun hki hne => ?_, fun hik => hs.2.2 (Nat.le_of_succ_le hik)⟩
      rcases Nat.lt_succ_iff_lt_or_eq.mp hki with h3 | h3
      · exact hs.2.1 h3 hne
      · rw [h3] at hk
        rw [hk] at hu_i
        cases hu_i
    lines_com := by
      intro k hk
      have hlines : (GrubFile.claimLine st2 i isC p vp data).lines = st2.lines := rfl
      rw [hlines]
      exact h.lines_com k hk
  }

/-- One step of the `read_file` loop preserves the C1 invariant, provided no
line's cleansed value collides with the in-band `COMMENT` sentinel. -/
theorem processLine_c1 {input : List String} {NAME : String} {ga : String → Bool}
    {i : Nat} {st : GrubFile.GState}
    (hsent : ∀ k, k < input.length → ∀ v,
      lineFull (input.getD k "") = some (false, NAME, v) →
      GrubFile.cleanse v ≠ GrubFile.COMMENT)
    (hi : i < input.length) (hinv : C1Inv input NAME i st) :
    ∃ st', GrubFile.processLine ga st i (input.getD i "") = .ok st' ∧
      C1Inv input NAME (i + 1) st' := by
  by_cases hb : pyStrip (input.getD i "") = ""
  · have hnone : lineFull (input.getD i "") = none := by
      unfold lineFull
      rw [hb]
      rfl
    obtain ⟨hu, hc⟩ := noOcc_of_none hnone
    exact ⟨st, processLine_blank hb, hinv.stepNoOcc hu hc⟩
  cases hpa : GrubFile.parseAssign (pyStrip (input.getD i "")) with
  | none =>
    have hnone : lineFull (input.getD i "") = none := hpa
    obtain ⟨hu, hc⟩ := noOcc_of_none hnone
    exact ⟨st, processLine_nonmatch hb hpa, hinv.stepNoOcc hu hc⟩
  | some trip =>
    obtain ⟨isC, param, vp⟩ := trip
    have hlf : lineFull (input.getD i "") = some (isC, param, vp) := hpa
    rw [processLine_matched hb hpa]
    by_cases hpn : param = NAME
    · subst hpn
      have hnn : (dictGet st.supported param).isNone = false := by
        have hns := hinv.name_sup
        cases hg : dictGet st.supported param
        · rw [hg] at hns; cases hns
        · rfl
      obtain ⟨d, hd, hns⟩ := hinv.name_state
      simp only [GrubFile.processMatched]
      rw [if_neg (fun hh => by rw [hnn] at hh; cases hh.1),
        if_neg (fun hh => by rw [hnn] at hh; cases hh.1), hd]
      dsimp only
      unfold NameState at hns
      cases hlu : lastSat (uncAtB input param) i with
      | some j =>
        rw [hlu] at hns
        obtain ⟨hln, hval, hout⟩ := hns
        rw [hln]
        dsimp only
        obtain ⟨huj, hji, hmax⟩ := lastSat_eq_some_facts _ i j hlu
        have hvne : d.value ≠ GrubFile.COMMENT := by
          rw [hval]
          exact hsent j (Nat.lt_trans hji hi) (valAt input j) (uncAtB_elim huj)
        cases isC with
        | true =>
          rw [if_pos ⟨rfl, hvne⟩]
          exact ⟨st, rfl, hinv.stepComSkip (uncAtB_false_of_comLine hlf) hlu⟩
        | false =>
          rw [if_neg (fun hh => Bool.noConfusion hh.1), if_pos hvne]
          exact ⟨_, rfl, claimName_unc hinv hlu hlf hi hd⟩
      | none =>
        rw [hlu] at hns
        cases hlc : lastSat (comAtB input param) i with
        | some j =>
          rw [hlc] at hns
          obtain ⟨hln, hval, hout⟩ := hns
          rw [hln]
          dsimp only
          rw [if_neg (fun hh => hh.2 hval), if_neg (fun hh => hh hval)]
          refine ⟨_, rfl, ?_⟩
          exact claimName_noUnc (hinv.clearPof j) hlu hlf hi hd
        | none =>
          rw [hlc] at hns
          obtain ⟨hln, hval, hout⟩ := hns
          rw [hln]
          dsimp only
          exact ⟨_, rfl, claimName_noUnc hinv hlu hlf hi hd⟩
    · obtain ⟨hu_i, hc_i⟩ := notNameOcc hlf hpn
      simp only [GrubFile.processMatched]
      by_cases hskip : (dictGet st.supported param).isNone = true ∧ ga param = true
      · rw [if_pos hskip]
        exact ⟨st, rfl, hinv.stepNoOcc hu_i hc_i⟩
      rw [if_neg hskip]
      by_cases hdisc : (dictGet st.supported param).isNone = true ∧
          (dictGet st.extra param).isNone = true
      · rw [if_pos hdisc]
        have hinv1 := hinv.discover param vp hpn
        have hd1 : dictGet (GrubFile.discover st i param vp).param_data param =
            some GrubFile.absentDatum := by
          simp only [GrubFile.discover]
          exact dictGet_dictSet_self _ _ _
        rw [hd1]
        dsimp only
        exact ⟨_, rfl, claimOther hinv1 hlf hpn hi⟩
      rw [if_neg hdisc]
      have hsup : (dictGet st.supported param).isSome = true := by
        cases hg : dictGet st.supported param with
        | some cfg => rfl
        | none =>
          exfalso
          cases hg' : dictGet st.extra param with
          | none => exact hdisc ⟨by rw [hg]; rfl, by rw [hg']; rfl⟩
          | some cfg' =>
            have := hinv.extra_sup param (by rw [hg']; rfl)
            rw [hg] at this
            cases this
      obtain ⟨cfg, hcfg⟩ : ∃ cfg, dictGet st.supported param = some cfg := by
        cases hg : dictGet st.supported param with
        | some cfg => exact ⟨cfg, rfl⟩
        | none => rw [hg] at hsup; cases hsup
      have hpd : (dictGet st.param_data param).isSome = true :=
        hinv.sup_cov (param, cfg) (mem_of_dictGet _ _ _ hcfg)
      obtain ⟨data, hdata⟩ : ∃ d, dictGet st.param_data param = some d := by
        cases hg : dictGet st.param_data param with
        | some d => exact ⟨d, rfl⟩
        | none => rw [hg] at hpd; cases hpd
      rw [hdata]
      dsimp only
      cases hln : data.line_num with
      | none =>
        exact ⟨_, rfl, claimOther hinv hlf hpn hi⟩
      | some prev =>
        dsimp only
        obtain ⟨hprev_lt, c', v', hprev_lf⟩ := hinv.claims_own param data hdata prev hln
        obtain ⟨hup, hcp⟩ := notNameOcc hprev_lf hpn
        by_cases hskip2 : isC = true ∧ data.value ≠ GrubFile.COMMENT
        · rw [if_pos hskip2]
          exact ⟨st, rfl, hinv.stepNoOcc hu_i hc_i⟩
        rw [if_neg hskip2]
        by_cases hvc : data.value ≠ GrubFile.COMMENT
        · rw [if_pos hvc]
          have hinv2 := hinv.clearOther prev
            (st.lines.set prev ("#" ++ st.lines.getD prev "")) hup hcp
            (fun k hk => getD_set_ne st.lines prev k _ "" (fun hh => hk hh.symm))
            (length_set' st.lines prev _)
          exact ⟨_, rfl, claimOther hinv2 hlf hpn hi⟩
        · rw [if_neg hvc]
          have hinv2 := hinv.clearPof prev
          exact ⟨_, rfl, claimOther hinv2 hlf hpn hi⟩

theorem lineFull_default : lineFull "" = none := rfl

theorem uncAtB_false_ge {input : List String} {NAME : String} {k : Nat}
    (h : input.length ≤ k) : uncAtB input NAME k = false := by
  unfold uncAtB
  rw [List.getD_eq_default _ _ h, lineFull_default]

theorem comAtB_false_ge {input : List String} {NAME : String} {k : Nat}
    (h : input.length ≤ k) : comAtB input NAME k = false := by
  unfold comAtB
  rw [List.getD_eq_default _ _ h, lineFull_default]

theorem lastSat_stable (p : Nat → Bool) :
    ∀ (m n : Nat), n ≤ m → (∀ k, n ≤ k → k < m → p k = false) →
      lastSat p m = lastSat p n := by
  intro m
  induction m with
  | zero =>
    intro n hn _
    cases Nat.le_zero.mp hn
    rfl
  | succ m' ih =>
    intro n hn hfalse
    by_cases h3 : n = m' + 1
    · rw [h3]
    · have hn' : n ≤ m' := Nat.le_of_lt_succ (Nat.lt_of_le_of_ne hn h3)
      rw [lastSat, if_neg (by rw [hfalse m' hn' (Nat.lt_succ_self m')]; simp)]
      exact ih n hn' (fun k hk1 hk2 => hfalse k hk1 (Nat.lt_succ_of_lt hk2))

/-- The C1 invariant closes at `input.length` once the scan index passes
the end of the input. -/
theorem C1Inv.atEndOfInput {input : List String} {NAME : String} {i : Nat}
    {st : GrubFile.GState} (h : C1Inv input NAME i st)
    (hge : input.length ≤ i) : C1Inv input NAME input.length st where
  lines_len := h.lines_len
  pof_len := h.pof_len
  pof_claims := h.pof_claims
  sup_cov := h.sup_cov
  extra_sup := h.extra_sup
  claims_own := by
    intro p d hd k hk
    obtain ⟨h1, c, v, h2⟩ := h.claims_own p d hd k hk
    have hklt : k < input.length := by
      by_contra hkge
      push_neg at hkge
      rw [List.getD_eq_default _ _ hkge, lineFull_default] at h2
      cases h2
    exact ⟨hklt, c, v, h2⟩
  name_sup := h.name_sup
  name_state := by
    obtain ⟨d, hd, hs⟩ := h.name_state
    refine ⟨d, hd, ?_⟩
    unfold NameState at hs ⊢
    rw [lastSat_stable (uncAtB input NAME) i input.length hge
      (fun k h1 h2 => uncAtB_false_ge h1)] at hs
    rw [lastSat_stable (comAtB input NAME) i input.length hge
      (fun k h1 h2 => comAtB_false_ge h1)] at hs
    exact hs
  lines_unc := by
    intro k hk
    have hs := h.lines_unc k hk
    have hstab : lastSat (uncAtB input NAME) i = lastSat (uncAtB input NAME) input.length :=
      lastSat_stable (uncAtB input NAME) i input.length hge
        (fun k h1 h2 => uncAtB_false_ge h1)
    rw [hstab] at hs
    refine ⟨hs.1, fun hki hne => hs.2.1 (Nat.lt_of_lt_of_le hki hge) hne,
      fun hik => ?_⟩
    rw [uncAtB_false_ge hik] at hk
    cases hk
  lines_com := h.lines_com

theorem readLoop_c1 {input : List String} {NAME : String} {ga : String → Bool}
    (hsent : ∀ k, k < input.length → ∀ v,
      lineFull (input.getD k "") = some (false, NAME, v) →
      GrubFile.cleanse v ≠ GrubFile.COMMENT) :
    ∀ (ls : List String) (i : Nat) (st : GrubFile.GState),
      input.drop i = ls → C1Inv input NAME i st →
      ∃ st', GrubFile.readLoop ga i ls st = .ok st' ∧
        C1Inv input NAME input.length st' := by
  intro ls
  induction ls with
  | nil =>
    intro i st hdrop hinv
    exact ⟨st, rfl, hinv.atEndOfInput (List.drop_eq_nil_iff.mp hdrop)⟩
  | cons l ls' ih =>
    intro i st hdrop hinv
    obtain ⟨hL, hdrop', hi⟩ := drop_cons_facts input i l ls' hdrop
    obtain ⟨st1, heq, hinv1⟩ := @processLine_c1 input NAME ga i st hsent hi hinv
    have heq' : GrubFile.processLine ga st i l = .ok st1 := by
      rw [← hL]
      exact heq
    obtain ⟨st', hloop, hinv'⟩ := ih (i + 1) st1 hdrop' hinv1
    refine ⟨st', ?_, hinv'⟩
    show GrubFile.readLoop ga i (l :: ls') st = .ok st'
    simp only [GrubFile.readLoop]
    rw [heq', except_bind_ok]
    exact hloop

theorem c1Inv_init (input : List String) (NAME : String)
    (supported : List (String × GrubFile.Cfg))
    (hsup : (dictGet supported NAME).isSome = true) :
    C1Inv input NAME 0
      { lines := input,
        param_of := List.replicate input.length none,
        param_data := GrubFile.initParamData supported,
        supported := supported,
        extra := [] } where
  lines_len := rfl
  pof_len := List.length_replicate _ _
  pof_claims := fun j p hj => by
    rw [getD_replicate_none] at hj
    cases hj
  sup_cov := fun pc hpc => by
    rw [dictGet_initParamData]
    have hm := dictGet_isSome_of_mem supported pc hpc
    cases hg : dictGet supported pc.1 with
    | none => rw [hg] at hm; cases hm
    | some cfg => rfl
  extra_sup := fun p hp => by cases hp
  claims_own := fun p d hd k hk => by
    rw [dictGet_initParamData] at hd
    cases hg : dictGet supported p with
    | none => rw [hg] at hd; cases hd
    | some cfg =>
      rw [hg] at hd
      cases hd
      cases hk
  name_sup := hsup
  name_state := by
    have hstate : NameState input NAME 0 GrubFile.absentDatum := by
      unfold NameState
      rw [show lastSat (uncAtB input NAME) 0 = none from rfl]
      rw [show lastSat (comAtB input NAME) 0 = none from rfl]
      exact ⟨rfl, rfl, rfl⟩
    refine ⟨GrubFile.absentDatum, ?_, hstate⟩
    show dictGet (GrubFile.initParamData supported) NAME = _
    rw [dictGet_initParamData]
    cases hg : dictGet supported NAME with
    | none => rw [hg] at hsup; cases hsup
    | some cfg => rfl
  lines_unc := fun k _ =>
    ⟨fun hsk => Option.noConfusion hsk,
     fun hki _ => absurd hki (Nat.not_lt_zero k),
     fun _ => rfl⟩
  lines_com := fun _ _ => rfl

/-- C1: duplicate-assignment resolution.  General part: for every input in
which `NAME` (a supported parameter, no cleansed value colliding with the
in-band `∎` sentinel) has an uncommented occurrence at line `j` and only
commented occurrences afterwards, after `read_file` the claim points at
`j` with the cleansed value of line `j`; every other uncommented occurrence
is rewritten with a leading `#`; commented occurrences are left untouched.
Concrete part: the `GRUB_TIMEOUT=5 / GRUB_TIMEOUT=10` example parses to
effective value `10` and writes back `#GRUB_TIMEOUT=5` then
`GRUB_TIMEOUT=10`. -/
theorem c1_duplicate_resolution :
    (∀ (input : List String) (supported : List (String × GrubFile.Cfg))
       (ga : String → Bool) (NAME : String) (j : Nat) (v : String),
      (dictGet supported NAME).isSome = true →
      (∀ k, k < input.length → ∀ v',
        lineFull (input.getD k "") = some (false, NAME, v') →
        GrubFile.cleanse v' ≠ GrubFile.COMMENT) →
      j < input.length →
      lineFull (input.getD j "") = some (false, NAME, v) →
      (∀ k, j < k → k < input.length → ∀ c v',
        lineFull (input.getD k "") = some (c, NAME, v') → c = true) →
      ∃ st, GrubFile.read_file supported ga (some input) = .ok st ∧
        ∃ d, dictGet st.param_data NAME = some d ∧
          d.line_num = some j ∧ d.value = GrubFile.cleanse v ∧
          (∀ k v', k < input.length →
            lineFull (input.getD k "") = some (false, NAME, v') → k ≠ j →
            st.lines.getD k "" = "#" ++ input.getD k "") ∧
          (∀ k v', lineFull (input.getD k "") = some (true, NAME, v') →
            st.lines.getD k "" = input.getD k "")) ∧
    ((GrubFile.read_file demoSupported gaNone (some inputC1)).map
        (fun st => (st.lines, GrubFile.get_current_state st "GRUB_TIMEOUT")) =
      .ok (["#GRUB_TIMEOUT=5\n", "GRUB_TIMEOUT=10\n"], some "10")) ∧
    ((GrubFile.read_file demoSupported gaNone (some inputC1)).bind
        GrubFile.writeContent = .ok "#GRUB_TIMEOUT=5\nGRUB_TIMEOUT=10\n") := by
  refine ⟨?_, by decide, by decide⟩
  intro input supported ga NAME j v hsup hsent hj hjlf hlast
  obtain ⟨st, hloop, hinv⟩ := readLoop_c1 hsent input 0
    { lines := input,
      param_of := List.replicate input.length none,
      param_data := GrubFile.initParamData supported,
      supported := supported,
      extra := [] }
    (List.drop_zero input) (c1Inv_init input NAME supported hsup)
  refine ⟨st, hloop, ?_⟩
  have hujB : uncAtB input NAME j = true := uncAtB_of_lineFull hjlf
  have hlastB : ∀ m, j < m → m < input.length → uncAtB input NAME m = false := by
    intro m h1 h2
    cases hu : uncAtB input NAME m with
    | false => rfl
    | true =>
      exact absurd (hlast m h1 h2 false (valAt input m) (uncAtB_elim hu))
        (by decide)
  have hlu : lastSat (uncAtB input NAME) input.length = some j :=
    lastSat_intro _ input.length j hujB hj hlastB
  obtain ⟨d, hd, hns⟩ := hinv.name_state
  unfold NameState at hns
  rw [hlu] at hns
  obtain ⟨hln, hval, hout⟩ := hns
  refine ⟨d, hd, hln, ?_, ?_, ?_⟩
  · rw [hval, valAt_of_lineFull hjlf]
  · intro k v' hk hkf hkj
    exact (hinv.lines_unc k (uncAtB_of_lineFull hkf)).2.1 hk
      (fun hh => hkj (Option.some.inj (by rw [hlu] at hh; exact hh)).symm)
  · intro k v' hkf
    exact hinv.lines_com k (comAtB_of_lineFull hkf)

/-- Witness for `c1_duplicate_resolution`'s general part at the concrete
two-line duplicate input. -/
theorem c1_duplicate_resolution_witness :
    ∃ st, GrubFile.read_file demoSupported gaNone (some inputC1) = .ok st ∧
      ∃ d, dictGet st.param_data "GRUB_TIMEOUT" = some d ∧
        d.line_num = some 1 ∧ d.value = GrubFile.cleanse "10" ∧
        (∀ k v', k < inputC1.length →
          lineFull (inputC1.getD k "") = some (false, "GRUB_TIMEOUT", v') → k ≠ 1 →
          st.lines.getD k "" = "#" ++ inputC1.getD k "") ∧
        (∀ k v', lineFull (inputC1.getD k "") = some (true, "GRUB_TIMEOUT", v') →
          st.lines.getD k "" = inputC1.getD k "") := by
  have hsent : ∀ k, k < inputC1.length → ∀ v',
      lineFull (inputC1.getD k "") = some (false, "GRUB_TIMEOUT", v') →
      GrubFile.cleanse v' ≠ GrubFile.COMMENT := by
    intro k hk v' h
    have hlen : inputC1.length = 2 := rfl
    rw [hlen] at hk
    interval_cases k
    · have e : lineFull (inputC1.getD 0 "") =
          some (false, "GRUB_TIMEOUT", "5\n".dropRight 1) := by decide
      rw [show lineFull (inputC1.getD 0 "") =
          some (false, "GRUB_TIMEOUT", "5") from by decide] at h
      cases h
      decide
    · rw [show lineFull (inputC1.getD 1 "") =
          some (false, "GRUB_TIMEOUT", "10") from by decide] at h
      cases h
      decide
  have hlast : ∀ k, 1 < k → k < inputC1.length → ∀ c v',
      lineFull (inputC1.getD k "") = some (c, "GRUB_TIMEOUT", v') → c = true := by
    intro k h1 h2 c v' _
    exfalso
    have hlen : inputC1.length = 2 := rfl
    rw [hlen] at h2
    omega
  exact c1_duplicate_resolution.1 inputC1 demoSupported gaNone "GRUB_TIMEOUT" 1 "10"
    (by decide) hsent (by decide)
    (by rw [show lineFull (inputC1.getD 1 "") =
        some (false, "GRUB_TIMEOUT", "10") from by decide])
    hlast

/-- C4 (code-bug evidence): on the claim's own scenario the severity-4
check fires, but the `hey` helper evaluates `warns[param]` on the
still-empty `warns` dict, so `make_warns` raises
`KeyError: GRUB_SAVEDDEFAULT` instead of returning the documented
one-message warnings dict. -/
theorem c4_saved_default_keyerror :
    WizValidator.make_warns pxTrue {} [] c4vals =
      .error "KeyError: GRUB_SAVEDDEFAULT" ∧
    WizValidator.hey [] "GRUB_SAVEDDEFAULT" 4
        ("must be \"true\" since " ++ WizValidator.sh "GRUB_DEFAULT" ++ " is \"saved\"") =
      .error "KeyError: GRUB_SAVEDDEFAULT" := by
  exact ⟨by decide, by decide⟩

theorem sumLen_cons (c : List Char) (t : List (List Char)) :
    sumLen (c :: t) = c.length + sumLen t := by
  simp [sumLen]

theorem sumLen_reverse (l : List (List Char)) : sumLen l.reverse = sumLen l := by
  simp [sumLen, List.sum_reverse]

theorem sumLen_dropLast_le (l : List (List Char)) : sumLen l.dropLast ≤ sumLen l := by
  induction l with
  | nil => exact Nat.le_refl _
  | cons c t ih =>
    cases t with
    | nil => simp [sumLen]
    | cons d u =>
      have h : (c :: d :: u).dropLast = c :: (d :: u).dropLast := rfl
      rw [h, sumLen_cons, sumLen_cons]
      exact Nat.add_le_add_left ih _

theorem length_flatten_eq_sumLen (l : List (List Char)) :
    l.flatten.length = sumLen l := by
  induction l with
  | nil => rfl
  | cons c t ih =>
    rw [List.flatten_cons, List.length_append, ih, sumLen_cons]

theorem sumLen_dropTrailingWs_le (cur : List (List Char)) :
    sumLen (dropTrailingWs cur) ≤ sumLen cur := by
  unfold dropTrailingWs
  cases cur.getLast? with
  | none => exact Nat.le_refl _
  | some lastc =>
    dsimp only
    split
    · exact sumLen_dropLast_le cur
    · exact Nat.le_refl _

theorem greedyTake_sum_le (width : Nat) :
    ∀ (t : List (List Char)) (n : Nat) (acc : List (List Char)),
      n = sumLen acc → n ≤ width →
      sumLen ((greedyTake width n acc t).1) ≤ width := by
  intro t
  induction t with
  | nil =>
    intro n acc hn hle
    rw [greedyTake]
    show sumLen acc.reverse ≤ width
    rw [sumLen_reverse]
    omega
  | cons c t ih =>
    intro n acc hn hle
    rw [greedyTake]
    by_cases h : n + c.length ≤ width
    · rw [if_pos h]
      exact ih (n + c.length) (c :: acc) (by rw [sumLen_cons]; omega) h
    · rw [if_neg h]
      show sumLen acc.reverse ≤ width
      rw [sumLen_reverse]
      omega

theorem greedyTake_mem_rest (width : Nat) :
    ∀ (t : List (List Char)) (n : Nat) (acc : List (List Char)) (x : List Char),
      x ∈ (greedyTake width n acc t).2 → x ∈ t := by
  intro t
  induction t with
  | nil =>
    intro n acc x hx
    rw [greedyTake] at hx
    simp at hx
  | cons c t ih =>
    intro n acc x hx
    rw [greedyTake] at hx
    by_cases h : n + c.length ≤ width
    · rw [if_pos h] at hx
      exact List.mem_cons_of_mem c (ih _ _ x hx)
    · rw [if_neg h] at hx
      exact hx

theorem mem_dropInitialWs (hl : Bool) (chunks : List (List Char)) (x : List Char)
    (hx : x ∈ dropInitialWs hl chunks) : x ∈ chunks := by
  unfold dropInitialWs at hx
  cases chunks with
  | nil => exact hx
  | cons c t =>
    dsimp only at hx
    split at hx
    · exact List.mem_cons_of_mem c hx
    · exact hx

theorem handleLongWord_mem_rest (width : Nat) (cur rest : List (List Char))
    (x : List Char) (hx : x ∈ (handleLongWord width cur rest).2) : x ∈ rest := by
  unfold handleLongWord at hx
  cases rest with
  | nil => exact hx
  | cons c t =>
    dsimp only at hx
    split at hx
    · exact List.mem_cons_of_mem c hx
    · exact hx

theorem handleLongWord_fst (width : Nat) (cur rest : List (List Char)) :
    (handleLongWord width cur rest).1 = cur ∨
    ∃ c t, rest = c :: t ∧ width < c.length ∧ cur.isEmpty = true ∧
      (handleLongWord width cur rest).1 = [c] := by
  unfold handleLongWord
  cases rest with
  | nil => exact Or.inl rfl
  | cons c t =>
    dsimp only
    by_cases h : c.length > width ∧ cur.isEmpty = true
    · rw [if_pos h]
      exact Or.inr ⟨c, t, rfl, h.1, h.2, rfl⟩
    · rw [if_neg h]
      exact Or.inl rfl

theorem wrapStep_mem_rest (width : Nat) (hl : Bool) (chunks : List (List Char))
    (x : List Char) (hx : x ∈ (wrapStep width hl chunks).2) : x ∈ chunks := by
  have hx' : x ∈ (handleLongWord width
      (greedyTake width 0 [] (dropInitialWs hl chunks)).1
      (greedyTake width 0 [] (dropInitialWs hl chunks)).2).2 := hx
  exact mem_dropInitialWs hl chunks x
    (greedyTake_mem_rest width _ _ _ x (handleLongWord_mem_rest width _ _ x hx'))

theorem wrapStep_line_le (width : Nat) (hl : Bool) (chunks : List (List Char))
    (H : ∀ c ∈ chunks, isWsChunk c = false → c.length ≤ width) :
    ∀ l, (wrapStep width hl chunks).1 = some l → l.length ≤ width := by
  intro l hline
  have hgr : sumLen ((greedyTake width 0 [] (dropInitialWs hl chunks)).1) ≤ width :=
    greedyTake_sum_le width _ 0 [] rfl (Nat.zero_le width)
  have hline' : (if (dropTrailingWs (handleLongWord width
      (greedyTake width 0 [] (dropInitialWs hl chunks)).1
      (greedyTake width 0 [] (dropInitialWs hl chunks)).2).1).isEmpty then
        (none : Option (List Char))
      else some (dropTrailingWs (handleLongWord width
      (greedyTake width 0 [] (dropInitialWs hl chunks)).1
      (greedyTake width 0 [] (dropInitialWs hl chunks)).2).1).flatten) = some l := hline
  rcases handleLongWord_fst width
      (greedyTake width 0 [] (dropInitialWs hl chunks)).1
      (greedyTake width 0 [] (dropInitialWs hl chunks)).2 with hfst | ⟨c, t, hrest, hclen, _, hfst⟩
  · rw [hfst] at hline'
    cases hemp : (dropTrailingWs
        (greedyTake width 0 [] (dropInitialWs hl chunks)).1).isEmpty with
    | true => rw [if_pos hemp] at hline'; cases hline'
    | false =>
      rw [if_neg (by rw [hemp]; exact Bool.false_ne_true)] at hline'
      have := Option.some.inj hline'
      rw [← this, length_flatten_eq_sumLen]
      exact Nat.le_trans (sumLen_dropTrailingWs_le _) hgr
  · have hcmem : c ∈ chunks :=
      mem_dropInitialWs hl chunks c
        (greedyTake_mem_rest width _ 0 [] c
          (by rw [hrest]; exact List.mem_cons_self c t))
    cases hws : isWsChunk c with
    | false =>
      exact absurd (H c hcmem hws) (by omega)
    | true =>
      rw [hfst] at hline'
      have hdrop : dropTrailingWs [c] = [] := by
        unfold dropTrailingWs
        rw [show ([c] : List (List Char)).getLast? = some c from rfl]
        dsimp only
        rw [if_pos hws]
        rfl
      rw [hdrop] at hline'
      simp at hline'

theorem wrapChunksF_line_le (width : Nat) :
    ∀ (fuel : Nat) (hl : Bool) (chunks : List (List Char)),
      (∀ c ∈ chunks, isWsChunk c = false → c.length ≤ width) →
      ∀ l ∈ wrapChunksF fuel width hl chunks, l.length ≤ width := by
  intro fuel
  induction fuel with
  | zero =>
    intro hl chunks H l hm
    simp [wrapChunksF] at hm
  | succ f ih =>
    intro hl chunks H l hm
    cases hch : chunks with
    | nil => rw [hch] at hm; simp [wrapChunksF] at hm
    | cons c t =>
      rw [hch] at hm H
      rw [wrapChunksF] at hm
      cases hstep : wrapStep width hl (c :: t) with
      | mk line? rest =>
        rw [hstep] at hm
        have Hrest : ∀ x ∈ rest, isWsChunk x = false → x.length ≤ width := by
          intro x hx hxw
          have hx' : x ∈ (wrapStep width hl (c :: t)).2 := by rw [hstep]; exact hx
          exact H x (wrapStep_mem_rest width hl (c :: t) x hx') hxw
        cases line? with
        | some lw =>
          rcases List.mem_cons.mp hm with h | h
          · subst h
            exact wrapStep_line_le width hl (c :: t) H l (by rw [hstep])
          · exact ih true rest Hrest l h
        | none => exact ih hl rest Hrest l hm

theorem pyWrap_line_le (width : Nat) (g : String)
    (H : ∀ w ∈ splitRuns (munge g), isWsChunk w = false → w.length ≤ width) :
    ∀ l ∈ pyWrap width g, l.length ≤ width := by
  intro l hl
  unfold pyWrap at hl
  rcases List.mem_map.mp hl with ⟨lc, hlc, hmk⟩
  unfold wrapChunks at hlc
  have hlen : l.length = lc.length := by rw [← hmk]; rfl
  rw [hlen]
  exact wrapChunksF_line_le width _ false _ H lc hlc

theorem writeParamBlock_lines (st : GrubFile.GState) (param : String)
    (cfg : GrubFile.Cfg) (h : (dictGet st.param_data param).isSome = true) :
    ∃ bl, GrubFile.writeParamBlock st param cfg = .ok bl ∧
      bl.map (·.2) = GrubFile.specAppendLines st (param, cfg) := by
  unfold GrubFile.writeParamBlock GrubFile.specAppendLines
  cases hd : dictGet st.param_data param with
  | none => rw [hd] at h; cases h
  | some data =>
    dsimp only
    by_cases hv : data.value = GrubFile.ABSENT
    · rw [if_pos hv, if_pos hv]
      cases data.new_value with
      | none => exact ⟨[], rfl, rfl⟩
      | some nv =>
        dsimp only
        by_cases hc : nv = GrubFile.COMMENT
        · rw [if_pos hc, if_pos hc]
          exact ⟨[], rfl, rfl⟩
        · rw [if_neg hc, if_neg hc]
          refine ⟨_, rfl, ?_⟩
          by_cases hg : cfg.guidance ≠ ""
          · rw [if_pos hg]
            simp only [List.map_cons, List.map_append, List.map_map]
            rfl
          · rw [if_neg hg]
            push_neg at hg
            rw [hg]
            rfl
    · rw [if_neg hv, if_neg hv]
      exact ⟨[], rfl, rfl⟩

theorem writeStage2_lines (st : GrubFile.GState) :
    ∀ (sup : List (String × GrubFile.Cfg)),
      (∀ pc ∈ sup, (dictGet st.param_data pc.1).isSome = true) →
      ∃ s2, GrubFile.writeStage2 st sup = .ok s2 ∧
        s2.map (·.2) = (sup.map (GrubFile.specAppendLines st)).flatten := by
  intro sup
  induction sup with
  | nil => intro _; exact ⟨[], rfl, rfl⟩
  | cons pc rest ih =>
    intro h
    obtain ⟨param, cfg⟩ := pc
    obtain ⟨bl, hbl, hbl2⟩ := writeParamBlock_lines st param cfg
      (h (param, cfg) (List.mem_cons_self _ _))
    obtain ⟨tl, htl, htl2⟩ := ih (fun x hx => h x (List.mem_cons_of_mem _ hx))
    refine ⟨bl ++ tl, ?_, ?_⟩
    · simp only [GrubFile.writeStage2]
      rw [hbl, except_bind_ok, htl, except_bind_ok]
    · rw [List.map_append, hbl2, htl2, List.map_cons, List.flatten_cons]

/-- C5: append-of-absent contract of `write_file`.  First part (structure):
whenever stage 1 of the write succeeds and every supported parameter has a
`param_data` entry, the written content is the stage-1 text followed by
exactly the appended blocks of `specAppendLines` (a direct rendition of
the claim's words: one blank line, the `# `-prefixed 68-column-wrapped
guidance, then `NAME=value\n` for each originally `ABSENT` parameter with
a pending literal, in metadata-table order; nothing for pending unset or
`COMMENT`).  Second part (width, amended): a wrapped guidance line is
bounded by 68 characters provided no single non-whitespace word of the
guidance exceeds 68 characters — with `break_long_words=False` a longer
word is emitted intact, which refutes the claim's unconditional 70-column
bound (see the counterexample). -/
theorem c5_append_of_absent :
    (∀ (st : GrubFile.GState) (s1 : List (String × String)),
      GrubFile.writeStage1 st 0 st.lines = .ok s1 →
      (∀ pc ∈ st.supported, (dictGet st.param_data pc.1).isSome = true) →
      GrubFile.writeContent st = .ok (String.join
        (s1.map (·.2) ++ (st.supported.map (GrubFile.specAppendLines st)).flatten))) ∧
    (∀ (g : String), (∀ w ∈ splitRuns (munge g),
        isWsChunk w = false → w.length ≤ 68) →
      ∀ l ∈ pyWrap 68 g, l.length ≤ 68 ∧ ("# " ++ l).length ≤ 70) := by
  constructor
  · intro st s1 h1 hwf
    obtain ⟨s2, h2, hspec⟩ := writeStage2_lines st st.supported hwf
    unfold GrubFile.writeContent GrubFile.writeNewLines
    rw [h1, except_bind_ok, h2, except_bind_ok]
    have hred : (Except.map (fun nl => String.join (List.map (fun x => x.2) nl))
        (Except.ok (s1 ++ s2)) : Except String String) =
        Except.ok (String.join (List.map (fun x => x.2) (s1 ++ s2))) := rfl
    rw [hred, List.map_append, hspec]
  · intro g H l hl
    have hle := pyWrap_line_le 68 g H l hl
    refine ⟨hle, ?_⟩
    have : ("# " ++ l).length = 2 + l.length := by
      show ("# ".data ++ l.data).length = 2 + l.data.length
      rw [List.length_append]
      rfl
    omega

/-- C5 counterexample to the unconditional width bound: a guidance text
that is one 72-character word survives wrapping intact
(`break_long_words=False`), so the appended comment line is 74 characters
wide, exceeding the claimed 70-column limit; the full written content for
an originally empty file with that parameter pending value `1` shows the
over-wide line. -/
theorem c5_counterexample_long_guidance :
    (((GrubFile.read_file c5Supported gaNone (some [])).bind
        (fun st => GrubFile.set_new_value st "GRUB_X" "1")).bind
      GrubFile.writeContent) = .ok ("\n# " ++ c5word ++ "\nGRUB_X=1\n") ∧
    pyWrap 68 c5word = [c5word] ∧
    c5word.length = 72 ∧ ("# " ++ c5word).length = 74 := by
  refine ⟨by decide, by decide, by decide, by decide⟩

/-- Witness for `c5_append_of_absent` at the concrete state `c5st` (one
kept line, one originally absent parameter pending `/boot/theme`) and the
concrete guidance text `short words`. -/
theorem c5_append_of_absent_witness :
    GrubFile.writeContent c5st = .ok (String.join
      (([("=", "GRUB_TIMEOUT=5\n")].map (·.2)) ++
        ((c5st.supported.map (GrubFile.specAppendLines c5st)).flatten))) ∧
    ("short words" : String).length ≤ 68 ∧
    ("# " ++ "short words").length ≤ 70 :=
  ⟨c5_append_of_absent.1 c5st [("=", "GRUB_TIMEOUT=5\n")] (by decide) (by decide),
   c5_append_of_absent.2 "short words" (by decide) "short words" (by decide)⟩

end GrubPal
